import Mathlib

/-!
Shallow embedding of `src/backend/data/preprocessing.py` (Lisbon house price
preprocessing pipeline).

A pandas `DataFrame` loaded from a CSV is modelled as a header (a list of
column names with a dtype tag, `int64`/`float64` collapsed to `numeric` and
`object` kept as `object`) together with a list of rows; a cell is `none`
(pandas `NaN`) or a rational number / string.  Fallible pandas operations
(`mode()[0]` on an empty mode, arithmetic or `quantile` on `object` dtype)
are modelled with `Except String`.
-/

namespace LisbonPrep

/-- A scalar value held in a cell: a number (`int64`/`float64`) or a string. -/
inductive Val where
  | num (q : ℚ)
  | str (s : String)
deriving DecidableEq, Repr

/-- A cell of the table; `none` models pandas `NaN` / missing. -/
abbrev Cell := Option Val

/-- Column dtype tag, as produced by `pd.read_csv`:
`int64`/`float64` are `numeric`, strings are `object`. -/
inductive DType where
  | numeric
  | object
deriving DecidableEq, Repr

/-- A column header: name plus dtype. -/
structure Hdr where
  name : String
  dtype : DType
deriving DecidableEq, Repr

/-- A row: the list of cells, aligned with the header. -/
abbrev Row := List Cell

/-- A dataframe: header plus rows. -/
structure DF where
  header : List Hdr
  rows : List Row
deriving DecidableEq, Repr

/-- Cell of a row at a column index; out-of-range reads as missing. -/
def cellAt (r : Row) (k : ℕ) : Cell := (r.get? k).getD none

/-- Header at a column index (dummy default out of range). -/
def hdrAt (df : DF) (k : ℕ) : Hdr := df.header.getD k ⟨"", .numeric⟩

/-- The cells of column `k`, top to bottom. -/
def colCells (df : DF) (k : ℕ) : List Cell := df.rows.map (fun r => cellAt r k)

/-- Number of rows. -/
def DF.nrows (df : DF) : ℕ := df.rows.length

/-- Well-formed: every row has exactly one cell per header entry. -/
def DF.wf (df : DF) : Prop := ∀ r ∈ df.rows, r.length = df.header.length

/-- A cell is consistent with a column dtype (`NaN` fits every dtype). -/
def cellOk (h : Hdr) (c : Cell) : Bool :=
  match h.dtype, c with
  | _, none => true
  | .numeric, some (.num _) => true
  | .object, some (.str _) => true
  | _, _ => false

/-- Dtype-consistency of the cells, as `pd.read_csv` guarantees:
numeric columns hold numbers or `NaN`, object columns strings or `NaN`. -/
def DF.typed (df : DF) : Prop :=
  ∀ r ∈ df.rows, ∀ k, k < df.header.length →
    cellOk (df.header.getD k ⟨"", .numeric⟩) (cellAt r k) = true

/-- Column names are pairwise distinct (pandas label lookup is by name). -/
def DF.nodupNames (df : DF) : Prop := (df.header.map Hdr.name).Nodup

instance (df : DF) : Decidable df.wf := by
  unfold DF.wf
  infer_instance

instance (df : DF) : Decidable df.typed := by
  unfold DF.typed
  infer_instance

instance (df : DF) : Decidable df.nodupNames := by
  unfold DF.nodupNames
  infer_instance

/-- Index of the first column with the given name (`df[name]` lookup). -/
def colIdxAux (name : String) : List Hdr → Option ℕ
  | [] => none
  | h :: hs => if h.name = name then some 0 else (colIdxAux name hs).map (· + 1)

/-- Index of a column by name. -/
def colIdx (df : DF) (name : String) : Option ℕ := colIdxAux name df.header

/-- Column-presence test (`name in df.columns`). -/
def hasCol (df : DF) (name : String) : Bool := (colIdx df name).isSome

/-- The column named `name` as a list of cells (missing column reads empty). -/
def DF.col (df : DF) (name : String) : List Cell :=
  match colIdx df name with
  | some k => colCells df k
  | none => []

/-- Cell of the column named `name` in row `i`. -/
def DF.cell (df : DF) (name : String) (i : ℕ) : Cell :=
  match colIdx df name with
  | some k => cellAt (df.rows.getD i []) k
  | none => none

/-! ### Row / column selection plumbing -/

/-- Select entries of a list at the given indices (out of range reads `d`). -/
def selD {α : Type _} (d : α) (idxs : List ℕ) (l : List α) : List α :=
  idxs.map (fun i => l.getD i d)

/-- Positions at which a boolean mask is true. -/
def truePos (bs : List Bool) : List ℕ :=
  (List.range bs.length).filter (fun i => bs.getD i false)

/-- Keep only the columns at the given header indices (applied uniformly to
the header and to every row, as a pandas column drop does). -/
def selectCols (df : DF) (idxs : List ℕ) : DF :=
  ⟨selD ⟨"", .numeric⟩ idxs df.header, df.rows.map (selD none idxs)⟩

/-- `df.drop(columns=names)` restricted to names that are present
(the pipeline only calls it with present names). -/
def dropColsByName (df : DF) (names : List String) : DF :=
  selectCols df (truePos (df.header.map (fun h => !names.contains h.name)))

/-! ### clean_data, step by step -/

/-- Keep the first occurrence of each distinct element (`seen` accumulates
the values already emitted). -/
def dedupFirstAux {α : Type _} [DecidableEq α] (seen : List α) : List α → List α
  | [] => []
  | a :: as =>
    if a ∈ seen then dedupFirstAux seen as else a :: dedupFirstAux (a :: seen) as

/-- `cleaned_df.drop_duplicates(inplace=True)`: drop exact-duplicate rows,
keeping the first occurrence (pandas treats `NaN` as equal here). -/
def dropDuplicates (df : DF) : DF := ⟨df.header, dedupFirstAux [] df.rows⟩

/-- Present (non-`NaN`) values of a list of cells. -/
def presentVals (cs : List Cell) : List Val := cs.filterMap id

/-- `df.nunique()` for one column: number of distinct non-`NaN` values. -/
def nuniqueAt (df : DF) (k : ℕ) : ℕ := (presentVals (colCells df k)).dedup.length

/-- Drop every column whose `nunique()` is exactly 1
(`unique_counts[unique_counts == 1]`). -/
def dropConstCols (df : DF) : DF :=
  selectCols df
    (truePos ((List.range df.header.length).map (fun k => decide (nuniqueAt df k ≠ 1))))

/-- `if 'Id' in cleaned_df.columns: cleaned_df.drop(columns=['Id'])`. -/
def dropIdCol (df : DF) : DF :=
  if hasCol df "Id" then dropColsByName df ["Id"] else df

/-- Present numeric values of a list of cells. -/
def presentNums (cs : List Cell) : List ℚ :=
  cs.filterMap (fun c =>
    match c with
    | some (.num q) => some q
    | _ => none)

/-- Present string values of a list of cells. -/
def presentStrs (cs : List Cell) : List String :=
  cs.filterMap (fun c =>
    match c with
    | some (.str s) => some s
    | _ => none)

/-- Linear-interpolation quantile of a sorted nonempty list
(pandas/numpy default `interpolation='linear'`): position `q*(n-1)`
between the two neighbouring order statistics. -/
def quantileSorted (xs : List ℚ) (q : ℚ) : ℚ :=
  let n : ℚ := (xs.length : ℚ)
  let h : ℚ := q * (n - 1)
  let i : ℕ := (Int.floor h).toNat
  let lo := xs.getD i 0
  let hi := xs.getD (i + 1) lo
  lo + (h - (i : ℚ)) * (hi - lo)

/-- `Series.quantile(q)`: `NaN`-skipping; `none` when no value is present
(pandas returns `NaN` there, and every comparison with it is false). -/
def quantile? (cs : List Cell) (q : ℚ) : Option ℚ :=
  if (presentNums cs).isEmpty then none
  else some (quantileSorted (List.insertionSort (fun a b : ℚ => a ≤ b) (presentNums cs)) q)

/-- `Series.median()` = `quantile(0.5)`, skipping `NaN`. -/
def median? (cs : List Cell) : Option ℚ := quantile? cs (1 / 2)

/-- `Series.mode()[0]` for an object column: pandas `mode()` returns the
most frequent values sorted ascending, so `[0]` is the lexicographically
smallest value attaining the maximal count; `none` when no value is present
(there `mode()` is empty and `[0]` raises `KeyError`). -/
def modeStr? (cs : List Cell) : Option String :=
  let ss := presentStrs cs
  let cands := List.insertionSort (fun a b : String => a ≤ b) ss.dedup
  cands.foldl
    (fun best c =>
      match best with
      | none => some c
      | some b =>
        if (ss.filter (fun y => y = c)).length > (ss.filter (fun y => y = b)).length
        then some c else best)
    none

/-- Replace a missing cell by the fill value, if there is one
(`fillna(median)`; when the median is `NaN` the `fillna` is a no-op). -/
def fillCellNum (m : Option ℚ) (c : Cell) : Cell :=
  match c, m with
  | none, some q => some (.num q)
  | c, _ => c

/-- Replace a missing cell by the mode string, if there is one. -/
def fillCellStr (m : Option String) (c : Cell) : Cell :=
  match c, m with
  | none, some s => some (.str s)
  | c, _ => c

/-- Apply a per-column list of cell transforms to a row (positions beyond
the transform list are kept as they are). -/
def applyFns : List (Cell → Cell) → Row → Row
  | [], cs => cs
  | _ :: _, [] => []
  | f :: fs, c :: cs => f c :: applyFns fs cs

/-- `for col in numeric_cols: cleaned_df[col] = cleaned_df[col].fillna(median)`.
Each column is filled with its own median; filling one column does not change
another column's median, so the per-column loop is applied simultaneously. -/
def fillNumericStep (df : DF) : DF :=
  let fs := (List.range df.header.length).map (fun k =>
    if (hdrAt df k).dtype = .numeric then fillCellNum (median? (colCells df k)) else id)
  ⟨df.header, df.rows.map (applyFns fs)⟩

/-- `for col in categorical_cols: cleaned_df[col] = cleaned_df[col].fillna(mode()[0])`.
`mode()` of a column with no present value is empty and `[0]` raises `KeyError`;
otherwise the column is filled with its mode. -/
def fillCatStep (df : DF) : Except String DF :=
  if (List.range df.header.length).all (fun k =>
      (hdrAt df k).dtype = .object → !(presentVals (colCells df k)).isEmpty) then
    let fs := (List.range df.header.length).map (fun k =>
      if (hdrAt df k).dtype = .object then fillCellStr (modeStr? (colCells df k)) else id)
    .ok ⟨df.header, df.rows.map (applyFns fs)⟩
  else .error "KeyError: 0"

/-- One numeric cell after the two `.loc` assignments
(`col < lower -> lower` then `col > upper -> upper`); comparisons with
`NaN` are false, so missing cells are untouched, as are (ill-typed)
string cells. -/
def clampCell (lb ub : ℚ) (c : Cell) : Cell :=
  match c with
  | some (.num q) =>
    let v1 := if q < lb then lb else q
    some (.num (if ub < v1 then ub else v1))
  | c => c

/-- Replace column `k` cell-wise by `f`, leaving all other columns alone. -/
def mapColAt (df : DF) (k : ℕ) (f : Cell → Cell) : DF :=
  ⟨df.header, df.rows.map (fun r => r.set k (f (cellAt r k)))⟩

/-- IQR capping of one column, when present: bounds `Q1 - 1.5*IQR` and
`Q3 + 1.5*IQR` from the column's current values, out-of-range values set to
the bound.  `quantile` on an `object` column raises `TypeError`; a numeric
column with no present value has `NaN` quantiles and is skipped. -/
def capCol (df : DF) (name : String) : Except String DF :=
  match colIdx df name with
  | none => .ok df
  | some k =>
    if (hdrAt df k).dtype = .object then
      .error "TypeError: quantile on object dtype"
    else
      match quantile? (colCells df k) (1 / 4), quantile? (colCells df k) (3 / 4) with
      | some q1, some q3 =>
        let iqr := q3 - q1
        .ok (mapColAt df k (clampCell (q1 - 3 / 2 * iqr) (q3 + 3 / 2 * iqr)))
      | _, _ => .ok df

/-- `price_features + area_features`, the columns the capping loop visits. -/
def capTargets : List String := ["Price", "Price M2", "AreaNet", "AreaGross"]

/-- The outlier-capping loop `for col in price_features + area_features`,
unrolled in source order. -/
def capStep (df : DF) : Except String DF :=
  match capCol df "Price" with
  | .error e => .error e
  | .ok d1 =>
    match capCol d1 "Price M2" with
    | .error e => .error e
    | .ok d2 =>
      match capCol d2 "AreaNet" with
      | .error e => .error e
      | .ok d3 => capCol d3 "AreaGross"

/-- The `(x, y)` pairs where both cells are present numbers (pandas `corr`
uses pairwise-complete observations). -/
def numPairs (cs ds : List Cell) : List (ℚ × ℚ) :=
  (cs.zip ds).filterMap (fun p =>
    match p with
    | (some (.num a), some (.num b)) => some (a, b)
    | _ => none)

/-- Scaled second moments of the pairs: with `n` pairs,
`sxx = n*Σx² - (Σx)²`, `syy` likewise, `sxy = n*Σxy - Σx*Σy`.
The Pearson correlation is `sxy / sqrt(sxx*syy)`. -/
def corrStats (ps : List (ℚ × ℚ)) : ℚ × ℚ × ℚ :=
  let n : ℚ := (ps.length : ℚ)
  let sx := (ps.map (fun p => p.1)).sum
  let sy := (ps.map (fun p => p.2)).sum
  (n * (ps.map (fun p => p.1 ^ 2)).sum - sx ^ 2,
   n * (ps.map (fun p => p.2 ^ 2)).sum - sy ^ 2,
   n * (ps.map (fun p => p.1 * p.2)).sum - sx * sy)

/-- `cleaned_df['Price M2'].corr(cleaned_df['Price'])` followed by
`if abs(corr) < 0.3: drop 'Price M2'`.  `corr` on object dtype raises
`TypeError`; with fewer than two complete pairs or a zero variance the
correlation is `NaN` and `abs(NaN) < 0.3` is false, so the column is kept.
For positive variances, `|corr| < 3/10` iff `100*sxy² < 9*sxx*syy`. -/
def corrDropStep (df : DF) : Except String DF :=
  match colIdx df "Price M2", colIdx df "Price" with
  | some k1, some k2 =>
    if (hdrAt df k1).dtype = .object ∨ (hdrAt df k2).dtype = .object then
      .error "TypeError: correlation on object dtype"
    else
      if (numPairs (colCells df k1) (colCells df k2)).length < 2 ∨
          (corrStats (numPairs (colCells df k1) (colCells df k2))).1 = 0 ∨
          (corrStats (numPairs (colCells df k1) (colCells df k2))).2.1 = 0 then .ok df
      else if 100 * (corrStats (numPairs (colCells df k1) (colCells df k2))).2.2 ^ 2 <
          9 * (corrStats (numPairs (colCells df k1) (colCells df k2))).1 *
            (corrStats (numPairs (colCells df k1) (colCells df k2))).2.1 then
        .ok (dropColsByName df ["Price M2"])
      else .ok df
  | _, _ => .ok df

/-- `clean_data` up to and including the imputation steps. -/
def cleanThroughFill (df : DF) : Except String DF :=
  fillCatStep (fillNumericStep (dropIdCol (dropConstCols (dropDuplicates df))))

/-- `clean_data(df)`: duplicates, constant columns, `Id`, imputation,
IQR capping of `Price`/`Price M2`/`AreaNet`/`AreaGross`, then the
low-correlation drop of `Price M2`. -/
def clean_data (df : DF) : Except String DF :=
  match cleanThroughFill df with
  | .error e => .error e
  | .ok d =>
    match capStep d with
    | .error e => .error e
    | .ok d2 => corrDropStep d2

/-- The complete `(Price M2, Price)` pairs used by `corr`. -/
def priceCorrPairs (df : DF) : List (ℚ × ℚ) :=
  numPairs (df.col "Price M2") (df.col "Price")

/-- The scaled second moments of the `(Price M2, Price)` pairs. -/
def priceCorrStats (df : DF) : ℚ × ℚ × ℚ := corrStats (priceCorrPairs df)

/-- The exact condition under which `clean_data` drops `Price M2`: both
columns present, the Pearson correlation well defined (at least two
complete pairs and nonzero variances), and `|corr| < 0.3`, written
`100*sxy² < 9*sxx*syy` (equivalent for positive variances). -/
def dropsPriceM2 (df : DF) : Prop :=
  hasCol df "Price M2" = true ∧ hasCol df "Price" = true ∧
  2 ≤ (priceCorrPairs df).length ∧
  (priceCorrStats df).1 ≠ 0 ∧ (priceCorrStats df).2.1 ≠ 0 ∧
  100 * (priceCorrStats df).2.2 ^ 2 < 9 * (priceCorrStats df).1 * (priceCorrStats df).2.1

instance (df : DF) : Decidable (dropsPriceM2 df) := by
  unfold dropsPriceM2
  infer_instance

/-- Every present value of column `k` already lies inside that column's own
IQR fences (so capping the column is a no-op). -/
def withinFencesB (df : DF) (k : ℕ) : Bool :=
  match quantile? (colCells df k) (1 / 4), quantile? (colCells df k) (3 / 4) with
  | some q1, some q3 =>
    (presentNums (colCells df k)).all
      (fun v => decide (q1 - 3 / 2 * (q3 - q1) ≤ v ∧ v ≤ q3 + 3 / 2 * (q3 - q1)))
  | _, _ => true

/-! ### engineer_features -/

/-- `row[num] / row[den]` at one row: `NaN / b = NaN`; dividing a string
raises `TypeError`. -/
def divCell (p : Cell) (b : ℚ) : Except String Cell :=
  match p with
  | some (.num pv) => .ok (some (.num (pv / b)))
  | some (.str _) => .error "TypeError: unsupported operand"
  | none => .ok none

/-- The lambda `row[num] / row[den] if row[den] > 0 else row[num]`:
comparing `NaN > 0` is false (fall back to the numerator cell); comparing a
string with 0 raises `TypeError`. -/
def ratioCell (p b : Cell) : Except String Cell :=
  match b with
  | some (.num bv) => if 0 < bv then divCell p bv else .ok p
  | some (.str _) => .error "TypeError: comparison not supported"
  | none => .ok p

/-- The lambda `row['AreaNet'] / row['AreaGross'] if row['AreaGross'] > 0
else 0`: the fallback is the literal 0, also when `AreaGross` is `NaN`. -/
def areaRatioCell (an ag : Cell) : Except String Cell :=
  match ag with
  | some (.num gv) => if 0 < gv then divCell an gv else .ok (some (.num 0))
  | some (.str _) => .error "TypeError: comparison not supported"
  | none => .ok (some (.num 0))

/-- One row of `PropertyType + '_' + PropertySubType`: string concatenation,
`NaN` propagates, a number raises `TypeError`. -/
def concatCell (a b : Cell) : Except String Cell :=
  match a, b with
  | some (.str s1), some (.str s2) => .ok (some (.str (s1 ++ "_" ++ s2)))
  | some (.num _), _ => .error "TypeError: unsupported operand"
  | _, some (.num _) => .error "TypeError: unsupported operand"
  | _, _ => .ok none

/-- Map a fallible per-row function over the rows, collecting the new cells
(`df.apply(lambda row: ..., axis=1)`). -/
def mapCellsM (f : Row → Except String Cell) : List Row → Except String (List Cell)
  | [] => .ok []
  | r :: rs =>
    match f r with
    | .error e => .error e
    | .ok c =>
      match mapCellsM f rs with
      | .error e => .error e
      | .ok cs => .ok (c :: cs)

/-- Dtype pandas infers for a derived column: `object` when any value is a
string, else `float64`. -/
def dtypeOfCells (cs : List Cell) : DType :=
  if cs.any (fun c =>
      match c with
      | some (.str _) => true
      | _ => false) then .object
  else .numeric

/-- `engineered_df[name] = cells`: replace the column in place when the name
already exists, else append it on the right. -/
def setCol (df : DF) (name : String) (cells : List Cell) : DF :=
  match colIdx df name with
  | some k =>
    ⟨df.header.set k ⟨name, dtypeOfCells cells⟩,
     (df.rows.zip cells).map (fun p => p.1.set k p.2)⟩
  | none =>
    ⟨df.header ++ [⟨name, dtypeOfCells cells⟩],
     (df.rows.zip cells).map (fun p => p.1 ++ [p.2])⟩

/-- One guarded ratio feature (`if num in columns and den in columns`):
derive `newName` row-wise with `ratioCell`, else skip silently. -/
def deriveRatio (df : DF) (newName numName denName : String) : Except String DF :=
  match colIdx df numName, colIdx df denName with
  | some kn, some kd =>
    match mapCellsM (fun r => ratioCell (cellAt r kn) (cellAt r kd)) df.rows with
    | .error e => .error e
    | .ok cells => .ok (setCol df newName cells)
  | _, _ => .ok df

/-- The guarded `AreaUtilizationRatio` feature. -/
def deriveArea (df : DF) : Except String DF :=
  match colIdx df "AreaNet", colIdx df "AreaGross" with
  | some kn, some kg =>
    match mapCellsM (fun r => areaRatioCell (cellAt r kn) (cellAt r kg)) df.rows with
    | .error e => .error e
    | .ok cells => .ok (setCol df "AreaUtilizationRatio" cells)
  | _, _ => .ok df

/-- The guarded `PropertyCategory` feature; `Series + '_'` on a numeric
column raises `TypeError`. -/
def deriveConcat (df : DF) : Except String DF :=
  match colIdx df "PropertyType", colIdx df "PropertySubType" with
  | some ka, some kb =>
    if (hdrAt df ka).dtype = .numeric ∨ (hdrAt df kb).dtype = .numeric then
      .error "TypeError: unsupported operand"
    else
      match mapCellsM (fun r => concatCell (cellAt r ka) (cellAt r kb)) df.rows with
      | .error e => .error e
      | .ok cells => .ok (setCol df "PropertyCategory" cells)
  | _, _ => .ok df

/-- `engineer_features(df)`: the four guarded derived columns, in source
order (`PricePerBedroom`, `BathroomToBedroom`, `AreaUtilizationRatio`,
`PropertyCategory`). -/
def engineer_features (df : DF) : Except String DF :=
  match deriveRatio df "PricePerBedroom" "Price" "Bedrooms" with
  | .error e => .error e
  | .ok d1 =>
    match deriveRatio d1 "BathroomToBedroom" "Bathrooms" "Bedrooms" with
    | .error e => .error e
    | .ok d2 =>
      match deriveArea d2 with
      | .error e => .error e
      | .ok d3 => deriveConcat d3

/-! ### preprocess_data -/

/-- `X = df.drop(columns=[target_col, 'Id'] if 'Id' in df.columns else
[target_col])` and `y = df[target_col]`; `drop` raises `KeyError` when the
target column is absent. -/
def featureTargetSplit (df : DF) (targetCol : String) :
    Except String (DF × List Cell) :=
  match colIdx df targetCol with
  | some k =>
    .ok (dropColsByName df (if hasCol df "Id" then [targetCol, "Id"] else [targetCol]),
         colCells df k)
  | none => .error "KeyError"

/-- `train_test_split` sizing for a float `test_size`:
`n_test = ceil(test_size * n)`, `n_train = n - n_test`. -/
def nTestOf (n : ℕ) (testSize : ℚ) : ℕ := (Int.ceil (testSize * (n : ℚ))).toNat

/-- `sklearn.model_selection.train_test_split` on row indices: the
pseudo-random shuffle drawn from `random_state` is modelled by the
permutation `perm` of `range n`; the test set is the first `n_test`
shuffled indices, the train set the rest.  With an empty train or test
set sklearn raises `ValueError`. -/
def splitIndices (n : ℕ) (testSize : ℚ) (perm : List ℕ) :
    Except String (List ℕ × List ℕ) :=
  let nTest := nTestOf n testSize
  if nTest = 0 ∨ n - nTest = 0 then .error "ValueError: resulting set is empty"
  else .ok (perm.drop nTest, perm.take nTest)

/-- Rows of a table at the given indices. -/
def selectRows (df : DF) (idxs : List ℕ) : DF := ⟨df.header, selD [] idxs df.rows⟩

/-- `preprocess_data(df, target_col, test_size)` up to the train/test split:
`X`/`y` separation then the row split; `perm` stands for the shuffled index
order of `random_state=42`.  The subsequent `ColumnTransformer`
(median/most-frequent imputation, standardization, one-hot encoding) maps
each row to one encoded row, so it changes no row counts; standardization
divides by a real standard deviation (a square root), which is outside this
rational embedding and carries no claim here. -/
def preprocess_data (df : DF) (targetCol : String) (testSize : ℚ) (perm : List ℕ) :
    Except String (DF × DF × List Cell × List Cell) :=
  match featureTargetSplit df targetCol with
  | .error e => .error e
  | .ok (X, y) =>
    match splitIndices X.rows.length testSize perm with
    | .error e => .error e
    | .ok (trainIdx, testIdx) =>
      .ok (selectRows X trainIdx, selectRows X testIdx,
           selD none trainIdx y, selD none testIdx y)

/-! ### Statement-level traces of the caller's binding

`clean_data` and `engineer_features` both start with `df.copy()` and from
then on assign only to the local copy (`cleaned_df` / `engineered_df`).
To state what happens to the caller's table, the two functions are replayed
statement by statement on a state holding both the caller's binding `arg`
and the local variable `cur`; `copy()` makes `cur` an independent value. -/

structure CallSt where
  arg : DF
  cur : DF
deriving Repr

/-- `clean_data` replayed on the caller-visible state: every statement
assigns to `cleaned_df` (the `cur` field) only. -/
def clean_data_call (df : DF) : Except String CallSt :=
  let s : CallSt := ⟨df, df⟩
  let s : CallSt := { s with cur := dropDuplicates s.cur }
  let s : CallSt := { s with cur := dropConstCols s.cur }
  let s : CallSt := { s with cur := dropIdCol s.cur }
  let s : CallSt := { s with cur := fillNumericStep s.cur }
  match fillCatStep s.cur with
  | .error e => .error e
  | .ok d =>
    let s : CallSt := { s with cur := d }
    match capStep s.cur with
    | .error e => .error e
    | .ok d2 =>
      let s : CallSt := { s with cur := d2 }
      match corrDropStep s.cur with
      | .error e => .error e
      | .ok d3 => .ok { s with cur := d3 }

/-- `engineer_features` replayed on the caller-visible state: every
statement assigns to `engineered_df` (the `cur` field) only. -/
def engineer_features_call (df : DF) : Except String CallSt :=
  let s : CallSt := ⟨df, df⟩
  match deriveRatio s.cur "PricePerBedroom" "Price" "Bedrooms" with
  | .error e => .error e
  | .ok d1 =>
    let s : CallSt := { s with cur := d1 }
    match deriveRatio s.cur "BathroomToBedroom" "Bathrooms" "Bedrooms" with
    | .error e => .error e
    | .ok d2 =>
      let s : CallSt := { s with cur := d2 }
      match deriveArea s.cur with
      | .error e => .error e
      | .ok d3 =>
        let s : CallSt := { s with cur := d3 }
        match deriveConcat s.cur with
        | .error e => .error e
        | .ok d4 => .ok { s with cur := d4 }

/-! ### Measurements used to state the claims -/

/-- The table has at least one missing cell (`df.isnull().sum()` nonzero). -/
def DF.hasMissing (df : DF) : Bool := df.rows.any (fun r => r.any (fun c => c.isNone))

/-- The table has two exactly identical rows at different positions. -/
def DF.hasDupRows (df : DF) : Bool := decide (¬ df.rows.Nodup)

/-- The table has a column whose set of distinct present values has
cardinality 1. -/
def DF.hasConstCol (df : DF) : Bool :=
  (List.range df.header.length).any (fun k => nuniqueAt df k = 1)

/-! ### Lemmas: list plumbing -/

theorem applyFns_length (fs : List (Cell → Cell)) (r : Row) :
    (applyFns fs r).length = r.length := by
  induction fs generalizing r with
  | nil => rfl
  | cons f fs ih =>
    cases r with
    | nil => rfl
    | cons c cs => simp [applyFns, ih]

theorem applyFns_get? (fs : List (Cell → Cell)) (r : Row) (i : ℕ) :
    (applyFns fs r).get? i = (r.get? i).map (fun c => ((fs.get? i).getD id) c) := by
  induction fs generalizing r i with
  | nil =>
    simp [applyFns]
  | cons f fs ih =>
    cases r with
    | nil => simp [applyFns]
    | cons c cs =>
      cases i with
      | zero => simp [applyFns]
      | succ j => simpa [applyFns] using ih cs j

theorem selD_length {α : Type _} (d : α) (idxs : List ℕ) (l : List α) :
    (selD d idxs l).length = idxs.length := by
  simp [selD]

theorem selD_get? {α : Type _} (d : α) (idxs : List ℕ) (l : List α) (j : ℕ) :
    (selD d idxs l).get? j = (idxs.get? j).map (fun i => l.getD i d) := by
  simp [selD, List.get?_map]

theorem selD_append {α : Type _} (d : α) (a b : List ℕ) (l : List α) :
    selD d (a ++ b) l = selD d a l ++ selD d b l := by
  simp [selD]

theorem selD_map_succ {α : Type _} (d : α) (idxs : List ℕ) (x : α) (xs : List α) :
    selD d (idxs.map Nat.succ) (x :: xs) = selD d idxs xs := by
  simp [selD, List.map_map, Function.comp]

theorem selD_range {α : Type _} (d : α) (l : List α) :
    selD d (List.range l.length) l = l := by
  induction l with
  | nil => rfl
  | cons x xs ih =>
    rw [List.length_cons, List.range_succ_eq_map]
    simp only [selD, List.map_cons, List.map_map, List.getD_cons_zero]
    refine congrArg (x :: ·) ?_
    have hc : ((fun i => (x :: xs).getD i d) ∘ Nat.succ) = fun i => xs.getD i d := by
      funext i
      simp [Function.comp]
    rw [hc]
    simpa [selD] using ih

theorem mem_truePos (bs : List Bool) (i : ℕ) :
    i ∈ truePos bs ↔ i < bs.length ∧ bs.getD i false = true := by
  simp [truePos, List.mem_filter, List.mem_range]

theorem truePos_cons (b : Bool) (bs : List Bool) :
    truePos (b :: bs) = (if b then [0] else []) ++ (truePos bs).map Nat.succ := by
  unfold truePos
  rw [List.length_cons, List.range_succ_eq_map, List.filter_cons]
  simp only [List.getD_cons_zero, List.getD_cons_succ]
  rw [List.filter_map]
  have hc : ∀ i,
      ((fun i => (b :: bs).getD i false) ∘ Nat.succ) i = (fun i => bs.getD i false) i := by
    intro i
    simp [Function.comp]
  rw [List.filter_congr (fun i _ => hc i)]
  cases b with
  | true => simp
  | false => simp

theorem selD_truePos_filter {α : Type _} (p : α → Bool) (d : α) (l : List α) :
    selD d (truePos (l.map p)) l = l.filter p := by
  induction l with
  | nil => rfl
  | cons a l ih =>
    rw [List.map_cons, truePos_cons, selD_append, selD_map_succ, ih, List.filter_cons]
    cases h : p a with
    | true => simp [selD]
    | false => simp [selD]

theorem selD_truePos_range {α : Type _} (p : ℕ → Bool) (d : α) (l : List α) :
    selD d (truePos ((List.range l.length).map p)) l =
      selD d ((List.range l.length).filter p) l := by
  have hlen : ((List.range l.length).map p).length = l.length := by simp
  unfold truePos
  rw [hlen]
  refine congrArg (fun idxs => selD d idxs l) ?_
  refine List.filter_congr ?_
  intro i hi
  rw [List.mem_range] at hi
  simp [List.getD_eq_getElem?_getD, List.getElem?_map, List.getElem?_range hi]

theorem mem_dedupFirstAux {α : Type _} [DecidableEq α] (l : List α) (seen : List α)
    (a : α) : a ∈ dedupFirstAux seen l ↔ a ∈ l ∧ a ∉ seen := by
  induction l generalizing seen with
  | nil => simp [dedupFirstAux]
  | cons b l ih =>
    by_cases hb : b ∈ seen
    · simp only [dedupFirstAux, if_pos hb, ih, List.mem_cons]
      constructor
      · rintro ⟨h1, h2⟩
        exact ⟨Or.inr h1, h2⟩
      · rintro ⟨rfl | h1, h2⟩
        · exact absurd hb h2
        · exact ⟨h1, h2⟩
    · simp only [dedupFirstAux, if_neg hb, List.mem_cons, ih]
      constructor
      · rintro (rfl | ⟨h1, h2⟩)
        · exact ⟨Or.inl rfl, hb⟩
        · exact ⟨Or.inr h1, fun hs => h2 (Or.inr hs)⟩
      · rintro ⟨rfl | h1, h2⟩
        · exact Or.inl rfl
        · by_cases hab : a = b
          · exact Or.inl hab
          · exact Or.inr ⟨h1, fun hmem => hmem.elim hab h2⟩

theorem nodup_dedupFirstAux {α : Type _} [DecidableEq α] (l : List α) (seen : List α) :
    (dedupFirstAux seen l).Nodup := by
  induction l generalizing seen with
  | nil => exact List.nodup_nil
  | cons b l ih =>
    by_cases hb : b ∈ seen
    · simpa [dedupFirstAux, if_pos hb] using ih seen
    · rw [dedupFirstAux, if_neg hb]
      refine List.nodup_cons.2 ⟨fun hmem => ?_, ih (b :: seen)⟩
      exact ((mem_dedupFirstAux l (b :: seen) b).1 hmem).2 (List.mem_cons_self b seen)

theorem dedupFirstAux_eq_self {α : Type _} [DecidableEq α] (l : List α) (seen : List α)
    (hnd : l.Nodup) (hs : ∀ a ∈ l, a ∉ seen) : dedupFirstAux seen l = l := by
  induction l generalizing seen with
  | nil => rfl
  | cons b l ih =>
    rw [dedupFirstAux, if_neg (hs b (List.mem_cons_self b l))]
    rw [ih (b :: seen) (List.nodup_cons.1 hnd).2]
    intro a ha
    rcases List.nodup_cons.1 hnd with ⟨hb, _⟩
    intro hmem
    rcases List.mem_cons.1 hmem with rfl | hmem'
    · exact hb ha
    · exact hs a (List.mem_cons_of_mem _ ha) hmem'

/-! ### Lemmas: column lookup and column dropping -/

theorem colIdxAux_isSome (n : String) (hs : List Hdr) :
    (colIdxAux n hs).isSome = true ↔ ∃ h ∈ hs, h.name = n := by
  induction hs with
  | nil => simp [colIdxAux]
  | cons h hs ih =>
    by_cases hn : h.name = n
    · simp [colIdxAux, hn]
    · simp only [colIdxAux, if_neg hn, List.mem_cons]
      have hmap : (Option.map (fun x => x + 1) (colIdxAux n hs)).isSome =
          (colIdxAux n hs).isSome := by
        cases colIdxAux n hs <;> rfl
      rw [hmap, ih]
      constructor
      · rintro ⟨h', hm, he⟩
        exact ⟨h', Or.inr hm, he⟩
      · rintro ⟨h', rfl | hm, he⟩
        · exact absurd he hn
        · exact ⟨h', hm, he⟩

theorem colIdxAux_some (n : String) (hs : List Hdr) (k : ℕ) (d : Hdr)
    (h : colIdxAux n hs = some k) : k < hs.length ∧ (hs.getD k d).name = n := by
  induction hs generalizing k with
  | nil => simp [colIdxAux] at h
  | cons h0 hs ih =>
    by_cases hn : h0.name = n
    · rw [colIdxAux, if_pos hn] at h
      cases h
      simp [hn]
    · rw [colIdxAux, if_neg hn] at h
      rcases Option.map_eq_some'.1 h with ⟨j, hj, rfl⟩
      rcases ih j hj with ⟨h1, h2⟩
      exact ⟨Nat.succ_lt_succ h1, by simpa using h2⟩

theorem colIdxAux_of_getD (n : String) (hs : List Hdr) (k : ℕ) (d : Hdr)
    (hnd : (hs.map Hdr.name).Nodup) (hk : k < hs.length) (hn : (hs.getD k d).name = n) :
    colIdxAux n hs = some k := by
  induction hs generalizing k with
  | nil => exact absurd hk (by simp)
  | cons h0 hs ih =>
    have hnd' := hnd
    rw [List.map_cons, List.nodup_cons] at hnd'
    rcases hnd' with ⟨h0n, hsn⟩
    cases k with
    | zero =>
      simp only [List.getD_cons_zero] at hn
      rw [colIdxAux, if_pos hn]
    | succ j =>
      simp only [List.getD_cons_succ] at hn
      have hj : j < hs.length := Nat.lt_of_succ_lt_succ hk
      have hmem : hs.getD j d ∈ hs := by
        have hg := List.get_mem hs j hj
        rwa [List.getD_eq_get?, List.get?_eq_get hj, Option.getD_some]
      have hne : ¬ h0.name = n := by
        intro he
        rw [he, ← hn] at h0n
        exact h0n (List.mem_map_of_mem Hdr.name hmem)
      rw [colIdxAux, if_neg hne, ih j hsn hj hn]
      rfl

theorem hasCol_iff (df : DF) (n : String) :
    hasCol df n = true ↔ ∃ h ∈ df.header, h.name = n := by
  unfold hasCol colIdx
  exact colIdxAux_isSome n df.header

theorem colIdx_lt (df : DF) (n : String) (k : ℕ) (h : colIdx df n = some k) :
    k < df.header.length :=
  (colIdxAux_some n df.header k ⟨"", .numeric⟩ h).1

theorem colIdx_name (df : DF) (n : String) (k : ℕ) (h : colIdx df n = some k) :
    (hdrAt df k).name = n :=
  (colIdxAux_some n df.header k ⟨"", .numeric⟩ h).2

theorem selectCols_header (df : DF) (idxs : List ℕ) :
    (selectCols df idxs).header = selD ⟨"", .numeric⟩ idxs df.header := rfl

theorem selectCols_header_length (df : DF) (idxs : List ℕ) :
    (selectCols df idxs).header.length = idxs.length := by
  simp [selectCols, selD_length]

theorem selectCols_nrows (df : DF) (idxs : List ℕ) :
    (selectCols df idxs).rows.length = df.rows.length := by
  simp [selectCols]

theorem cellAt_selD (r : Row) (idxs : List ℕ) (j i : ℕ) (h : idxs.get? j = some i) :
    cellAt (selD none idxs r) j = cellAt r i := by
  unfold cellAt
  rw [selD_get?, h]
  simp [List.getD_eq_get?]

theorem colCells_selectCols (df : DF) (idxs : List ℕ) (j i : ℕ)
    (h : idxs.get? j = some i) :
    colCells (selectCols df idxs) j = colCells df i := by
  unfold colCells selectCols
  rw [List.map_map]
  refine List.map_congr_left ?_
  intro r _
  exact cellAt_selD r idxs j i h

theorem hdrAt_selectCols (df : DF) (idxs : List ℕ) (j i : ℕ)
    (h : idxs.get? j = some i) :
    hdrAt (selectCols df idxs) j = hdrAt df i := by
  unfold hdrAt selectCols
  simp only [List.getD_eq_get?, selD_get?, h]
  rfl

theorem selectCols_wf (df : DF) (idxs : List ℕ) : (selectCols df idxs).wf := by
  intro r hr
  rcases List.mem_map.1 hr with ⟨r0, _, rfl⟩
  simp [selD_length, selectCols, selD]

theorem dropColsByName_header (df : DF) (ns : List String) :
    (dropColsByName df ns).header = df.header.filter (fun h => !ns.contains h.name) := by
  unfold dropColsByName
  rw [selectCols_header, selD_truePos_filter]

theorem hasCol_dropColsByName (df : DF) (ns : List String) (m : String) :
    hasCol (dropColsByName df ns) m = true ↔
      (hasCol df m = true ∧ ns.contains m = false) := by
  rw [hasCol_iff, dropColsByName_header]
  constructor
  · rintro ⟨h, hm, rfl⟩
    rw [List.mem_filter] at hm
    exact ⟨(hasCol_iff df _).2 ⟨h, hm.1, rfl⟩, by simpa using hm.2⟩
  · rintro ⟨h1, h2⟩
    rcases (hasCol_iff df m).1 h1 with ⟨h, hm, rfl⟩
    exact ⟨h, List.mem_filter.2 ⟨hm, by simpa using h2⟩, rfl⟩

/-! ### Lemmas: the cleaning steps -/

theorem dropDuplicates_header (df : DF) : (dropDuplicates df).header = df.header := rfl

theorem mem_rows_dropDuplicates (df : DF) (r : Row) :
    r ∈ (dropDuplicates df).rows ↔ r ∈ df.rows := by
  unfold dropDuplicates
  rw [mem_dedupFirstAux]
  simp

theorem dropDuplicates_typed (df : DF) (h : df.typed) : (dropDuplicates df).typed := by
  intro r hr
  exact h r ((mem_rows_dropDuplicates df r).1 hr)

theorem dropDuplicates_wf (df : DF) (h : df.wf) : (dropDuplicates df).wf := by
  intro r hr
  exact h r ((mem_rows_dropDuplicates df r).1 hr)

theorem selectCols_typed (df : DF) (idxs : List ℕ)
    (hidx : ∀ i ∈ idxs, i < df.header.length) (h : df.typed) :
    (selectCols df idxs).typed := by
  intro r hr j hj
  rcases List.mem_map.1 hr with ⟨r0, hr0, rfl⟩
  rw [selectCols_header_length] at hj
  have hget : idxs.get? j = some (idxs.get ⟨j, hj⟩) := List.get?_eq_get hj
  set i := idxs.get ⟨j, hj⟩ with hi
  have hilt : i < df.header.length := hidx i (List.get_mem idxs j hj)
  have h1 : cellAt (selD none idxs r0) j = cellAt r0 i := cellAt_selD r0 idxs j i hget
  have h2 : (selectCols df idxs).header.getD j ⟨"", .numeric⟩ =
      df.header.getD i ⟨"", .numeric⟩ := hdrAt_selectCols df idxs j i hget
  rw [h1]
  rw [show (selectCols df idxs).header = selD ⟨"", .numeric⟩ idxs df.header from rfl] at h2 ⊢
  rw [h2]
  exact h r0 hr0 i hilt

theorem truePos_bounds {α : Type _} (f : α → Bool) (l : List α) :
    ∀ i ∈ truePos (l.map f), i < l.length := by
  intro i hi
  have := (mem_truePos _ _).1 hi
  simpa using this.1

theorem truePos_range_bounds (n : ℕ) (f : ℕ → Bool) :
    ∀ i ∈ truePos ((List.range n).map f), i < n := by
  intro i hi
  have := (mem_truePos _ _).1 hi
  simpa using this.1

theorem fillNumericStep_header (df : DF) : (fillNumericStep df).header = df.header := rfl

theorem fillNumericStep_nrows (df : DF) :
    (fillNumericStep df).rows.length = df.rows.length := by
  simp [fillNumericStep]

theorem fillNumericStep_wf (df : DF) (h : df.wf) : (fillNumericStep df).wf := by
  intro r hr
  rcases List.mem_map.1 hr with ⟨r0, hr0, rfl⟩
  rw [applyFns_length]
  exact h r0 hr0

theorem colCells_map_applyFns (df : DF) (fs : List (Cell → Cell)) (hwf : df.wf)
    (k : ℕ) (hk : k < df.header.length) :
    colCells ⟨df.header, df.rows.map (applyFns fs)⟩ k =
      (colCells df k).map (fun c => ((fs.get? k).getD id) c) := by
  unfold colCells
  rw [List.map_map, List.map_map]
  refine List.map_congr_left ?_
  intro r hr
  show cellAt (applyFns fs r) k = ((fs.get? k).getD id) (cellAt r k)
  have hkr : k < r.length := by
    rw [hwf r hr]
    exact hk
  unfold cellAt
  rw [applyFns_get?, List.get?_eq_get hkr]
  rfl

theorem fillNumericStep_colCells (df : DF) (hwf : df.wf) (k : ℕ)
    (hk : k < df.header.length) :
    colCells (fillNumericStep df) k = (colCells df k).map
      (if (hdrAt df k).dtype = .numeric then fillCellNum (median? (colCells df k)) else id) := by
  unfold fillNumericStep
  rw [colCells_map_applyFns df _ hwf k hk]
  congr 1
  rw [List.get?_map, List.get?_range hk]
  rfl

theorem fillCatStep_ok_header (df out : DF) (h : fillCatStep df = .ok out) :
    out.header = df.header := by
  unfold fillCatStep at h
  split at h
  · cases h
    rfl
  · cases h

theorem fillCatStep_ok_guard (df out : DF) (h : fillCatStep df = .ok out) :
    ∀ k, k < df.header.length → (hdrAt df k).dtype = .object →
      presentVals (colCells df k) ≠ [] := by
  unfold fillCatStep at h
  split at h
  case isTrue hg =>
    intro k hk hd
    have := List.all_eq_true.1 hg k (List.mem_range.2 hk)
    simp only [hd, decide_True, Bool.not_eq_true', List.isEmpty_eq_false] at this
    simpa using this
  case isFalse => cases h

theorem fillCatStep_ok_rows (df out : DF) (h : fillCatStep df = .ok out) :
    out.rows = df.rows.map (applyFns ((List.range df.header.length).map (fun k =>
      if (hdrAt df k).dtype = .object then fillCellStr (modeStr? (colCells df k)) else id))) := by
  unfold fillCatStep at h
  split at h
  · cases h
    rfl
  · cases h

theorem fillCatStep_ok_wf (df out : DF) (hwf : df.wf) (h : fillCatStep df = .ok out) :
    out.wf := by
  intro r hr
  rw [fillCatStep_ok_rows df out h] at hr
  rcases List.mem_map.1 hr with ⟨r0, hr0, rfl⟩
  rw [applyFns_length, fillCatStep_ok_header df out h]
  exact hwf r0 hr0

theorem fillCatStep_ok_colCells (df out : DF) (hwf : df.wf) (h : fillCatStep df = .ok out)
    (k : ℕ) (hk : k < df.header.length) :
    colCells out k = (colCells df k).map
      (if (hdrAt df k).dtype = .object then fillCellStr (modeStr? (colCells df k)) else id) := by
  have hrows := fillCatStep_ok_rows df out h
  have : colCells out k = colCells ⟨df.header, out.rows⟩ k := rfl
  rw [this, hrows, colCells_map_applyFns df _ hwf k hk]
  congr 1
  rw [List.get?_map, List.get?_range hk]
  rfl

/-! ### Lemmas: quantiles, capping, correlation -/

theorem quantile?_eq_none_iff (cs : List Cell) (q : ℚ) :
    quantile? cs q = none ↔ presentNums cs = [] := by
  unfold quantile?
  split_ifs with h
  · simpa [List.isEmpty_iff] using h
  · simp only [List.isEmpty_iff] at h
    simp [h]

theorem quantile?_isSome_of_mem (cs : List Cell) (q : ℚ) (v : ℚ)
    (hv : v ∈ presentNums cs) : (quantile? cs q).isSome = true := by
  unfold quantile?
  split_ifs with h
  · rw [List.isEmpty_iff] at h
    rw [h] at hv
    cases hv
  · rfl

theorem mapColAt_header (df : DF) (k : ℕ) (f : Cell → Cell) :
    (mapColAt df k f).header = df.header := rfl

theorem mapColAt_nrows (df : DF) (k : ℕ) (f : Cell → Cell) :
    (mapColAt df k f).rows.length = df.rows.length := by
  simp [mapColAt]

theorem mapColAt_wf (df : DF) (k : ℕ) (f : Cell → Cell) (hwf : df.wf) :
    (mapColAt df k f).wf := by
  intro r hr
  rcases List.mem_map.1 hr with ⟨r0, hr0, rfl⟩
  rw [List.length_set]
  exact hwf r0 hr0

theorem colCells_mapColAt_ne (df : DF) (k k' : ℕ) (f : Cell → Cell) (h : k ≠ k') :
    colCells (mapColAt df k f) k' = colCells df k' := by
  unfold colCells mapColAt
  rw [List.map_map]
  refine List.map_congr_left ?_
  intro r _
  show cellAt (r.set k (f (cellAt r k))) k' = cellAt r k'
  unfold cellAt
  rw [List.get?_set_ne _ _ h]

theorem colCells_mapColAt_self (df : DF) (k : ℕ) (f : Cell → Cell) (hwf : df.wf)
    (hk : k < df.header.length) :
    colCells (mapColAt df k f) k = (colCells df k).map f := by
  unfold colCells mapColAt
  rw [List.map_map, List.map_map]
  refine List.map_congr_left ?_
  intro r hr
  show cellAt (r.set k (f (cellAt r k))) k = f (cellAt r k)
  have hkr : k < r.length := by
    rw [hwf r hr]
    exact hk
  unfold cellAt
  rw [List.get?_set_eq_of_lt _ hkr, List.get?_eq_get hkr]
  rfl

theorem capCol_ok_cases (df out : DF) (nm : String) (h : capCol df nm = .ok out) :
    (colIdx df nm = none ∧ out = df) ∨
    ∃ k, colIdx df nm = some k ∧ (hdrAt df k).dtype = .numeric ∧
      ((presentNums (colCells df k) = [] ∧ out = df) ∨
       (∃ q1 q3, quantile? (colCells df k) (1 / 4) = some q1 ∧
          quantile? (colCells df k) (3 / 4) = some q3 ∧
          out = mapColAt df k (clampCell (q1 - 3 / 2 * (q3 - q1)) (q3 + 3 / 2 * (q3 - q1))))) := by
  unfold capCol at h
  split at h
  case h_1 hidx =>
    cases h
    exact Or.inl ⟨hidx, rfl⟩
  case h_2 k hidx =>
    split_ifs at h with hdt
    have hnum : (hdrAt df k).dtype = .numeric := by
      cases hd : (hdrAt df k).dtype
      · rfl
      · exact absurd hd hdt
    refine Or.inr ⟨k, hidx, hnum, ?_⟩
    split at h
    next q1 q3 hq1 hq3 =>
      cases h
      exact Or.inr ⟨q1, q3, hq1, hq3, rfl⟩
    next o1 o2 hno =>
      cases h
      cases hq1 : quantile? (colCells df k) (1 / 4) with
      | none => exact Or.inl ⟨(quantile?_eq_none_iff _ _).1 hq1, rfl⟩
      | some q1 =>
        cases hq3 : quantile? (colCells df k) (3 / 4) with
        | none => exact Or.inl ⟨(quantile?_eq_none_iff _ _).1 hq3, rfl⟩
        | some q3 =>
          rw [hq1, hq3] at hno
          exact absurd (hno q1 q3 rfl rfl) not_false

theorem capCol_ok_header (df out : DF) (nm : String) (h : capCol df nm = .ok out) :
    out.header = df.header := by
  rcases capCol_ok_cases df out nm h with ⟨_, rfl⟩ | ⟨k, _, _, ⟨_, rfl⟩ | ⟨q1, q3, _, _, rfl⟩⟩
  · rfl
  · rfl
  · rfl

theorem capCol_ok_nrows (df out : DF) (nm : String) (h : capCol df nm = .ok out) :
    out.rows.length = df.rows.length := by
  rcases capCol_ok_cases df out nm h with ⟨_, rfl⟩ | ⟨k, _, _, ⟨_, rfl⟩ | ⟨q1, q3, _, _, rfl⟩⟩
  · rfl
  · rfl
  · exact mapColAt_nrows df k _

theorem capCol_ok_wf (df out : DF) (nm : String) (hwf : df.wf)
    (h : capCol df nm = .ok out) : out.wf := by
  rcases capCol_ok_cases df out nm h with ⟨_, rfl⟩ | ⟨k, _, _, ⟨_, rfl⟩ | ⟨q1, q3, _, _, rfl⟩⟩
  · exact hwf
  · exact hwf
  · exact mapColAt_wf df k _ hwf

theorem capCol_ok_colRel (df out : DF) (nm : String) (hwf : df.wf)
    (h : capCol df nm = .ok out) (k : ℕ) :
    colCells out k = colCells df k ∨
    ∃ lb ub, colCells out k = (colCells df k).map (clampCell lb ub) := by
  rcases capCol_ok_cases df out nm h with ⟨_, rfl⟩ | ⟨k0, hk0, _, ⟨_, rfl⟩ | ⟨q1, q3, _, _, rfl⟩⟩
  · exact Or.inl rfl
  · exact Or.inl rfl
  · by_cases hkk : k0 = k
    · subst hkk
      by_cases hlt : k0 < df.header.length
      · exact Or.inr ⟨_, _, colCells_mapColAt_self df k0 _ hwf hlt⟩
      · exact absurd (colIdx_lt df nm k0 hk0) hlt
    · exact Or.inl (colCells_mapColAt_ne df k0 k _ hkk)

theorem capStep_ok_parts (df out : DF) (h : capStep df = .ok out) :
    ∃ d1 d2 d3, capCol df "Price" = .ok d1 ∧ capCol d1 "Price M2" = .ok d2 ∧
      capCol d2 "AreaNet" = .ok d3 ∧ capCol d3 "AreaGross" = .ok out := by
  unfold capStep at h
  split at h
  next e h1 => cases h
  next d1 h1 =>
    split at h
    next e h2 => cases h
    next d2 h2 =>
      split at h
      next e h3 => cases h
      next d3 h3 => exact ⟨d1, d2, d3, h1, h2, h3, h⟩

theorem capStep_ok_header (df out : DF) (h : capStep df = .ok out) :
    out.header = df.header := by
  rcases capStep_ok_parts df out h with ⟨d1, d2, d3, h1, h2, h3, h4⟩
  rw [capCol_ok_header _ _ _ h4, capCol_ok_header _ _ _ h3,
    capCol_ok_header _ _ _ h2, capCol_ok_header _ _ _ h1]

theorem capStep_ok_nrows (df out : DF) (h : capStep df = .ok out) :
    out.rows.length = df.rows.length := by
  rcases capStep_ok_parts df out h with ⟨d1, d2, d3, h1, h2, h3, h4⟩
  rw [capCol_ok_nrows _ _ _ h4, capCol_ok_nrows _ _ _ h3,
    capCol_ok_nrows _ _ _ h2, capCol_ok_nrows _ _ _ h1]

theorem capStep_ok_wf (df out : DF) (hwf : df.wf) (h : capStep df = .ok out) :
    out.wf := by
  rcases capStep_ok_parts df out h with ⟨d1, d2, d3, h1, h2, h3, h4⟩
  exact capCol_ok_wf _ _ _ (capCol_ok_wf _ _ _ (capCol_ok_wf _ _ _
    (capCol_ok_wf _ _ _ hwf h1) h2) h3) h4

theorem corrDropStep_ok_cases (df out : DF) (h : corrDropStep df = .ok out) :
    (dropsPriceM2 df ∧ out = dropColsByName df ["Price M2"]) ∨
    (¬ dropsPriceM2 df ∧ out = df) := by
  unfold corrDropStep at h
  split at h
  next k1 k2 hk1 hk2 =>
    have hps : priceCorrPairs df = numPairs (colCells df k1) (colCells df k2) := by
      unfold priceCorrPairs DF.col
      rw [hk1, hk2]
    have hstats : priceCorrStats df =
        corrStats (numPairs (colCells df k1) (colCells df k2)) := by
      unfold priceCorrStats
      rw [hps]
    have hc1 : hasCol df "Price M2" = true := by
      unfold hasCol
      rw [hk1]
      rfl
    have hc2 : hasCol df "Price" = true := by
      unfold hasCol
      rw [hk2]
      rfl
    split_ifs at h with hobj hdeg hlt
    · cases h
      refine Or.inr ⟨?_, rfl⟩
      rintro ⟨_, _, hlen, hs1, hs2, _⟩
      rw [hps] at hlen
      rw [hstats] at hs1 hs2
      rcases hdeg with hd | hd | hd
      · exact absurd hlen (by omega)
      · exact hs1 hd
      · exact hs2 hd
    · cases h
      push_neg at hdeg
      refine Or.inl ⟨⟨hc1, hc2, ?_, ?_, ?_, ?_⟩, rfl⟩
      · rw [hps]
        omega
      · rw [hstats]
        exact hdeg.2.1
      · rw [hstats]
        exact hdeg.2.2
      · rw [hstats]
        exact hlt
    · cases h
      refine Or.inr ⟨?_, rfl⟩
      rintro ⟨_, _, _, _, _, hle⟩
      rw [hstats] at hle
      exact hlt hle
  next hk =>
    cases h
    refine Or.inr ⟨?_, rfl⟩
    rintro ⟨hc1, hc2, _⟩
    unfold hasCol at hc1 hc2
    cases hm1 : colIdx df "Price M2" with
    | none =>
      rw [hm1] at hc1
      cases hc1
    | some k1 =>
      cases hm2 : colIdx df "Price" with
      | none =>
        rw [hm2] at hc2
        cases hc2
      | some k2 => exact hk k1 k2 hm1 hm2

theorem list_sq_sum_le (l : List ℚ) :
    (l.sum) ^ 2 ≤ (l.length : ℚ) * (l.map (fun x => x ^ 2)).sum := by
  induction l with
  | nil => simp
  | cons a l ih =>
    have hQ : (0 : ℚ) ≤ (l.map (fun x => x ^ 2)).sum := by
      refine List.sum_nonneg ?_
      intro x hx
      rcases List.mem_map.1 hx with ⟨y, _, rfl⟩
      positivity
    simp only [List.sum_cons, List.map_cons, List.length_cons]
    push_cast
    rcases Nat.eq_zero_or_pos l.length with h0 | hpos
    · have hl : l = [] := List.length_eq_zero.1 h0
      subst hl
      simp
    · have hn1 : (1 : ℚ) ≤ (l.length : ℚ) := by exact_mod_cast hpos
      have hslack : (0 : ℚ) ≤ (l.length : ℚ) * (l.map (fun x => x ^ 2)).sum - l.sum ^ 2 :=
        sub_nonneg.2 ih
      nlinarith [sq_nonneg ((l.length : ℚ) * a - l.sum), hslack, hn1,
        mul_nonneg (by linarith : (0 : ℚ) ≤ (l.length : ℚ) + 1) hslack]

theorem corrStats_fst_nonneg (ps : List (ℚ × ℚ)) : 0 ≤ (corrStats ps).1 := by
  have h := list_sq_sum_le (ps.map (fun p => p.1))
  rw [List.map_map, List.length_map] at h
  have he : ps.map ((fun x : ℚ => x ^ 2) ∘ fun p : ℚ × ℚ => p.1) =
      ps.map (fun p => p.1 ^ 2) := rfl
  rw [he] at h
  show (0 : ℚ) ≤ (ps.length : ℚ) * (ps.map (fun p => p.1 ^ 2)).sum -
    ((ps.map (fun p => p.1)).sum) ^ 2
  linarith [h]

theorem corrStats_snd_nonneg (ps : List (ℚ × ℚ)) : 0 ≤ (corrStats ps).2.1 := by
  have h := list_sq_sum_le (ps.map (fun p => p.2))
  rw [List.map_map, List.length_map] at h
  have he : ps.map ((fun x : ℚ => x ^ 2) ∘ fun p : ℚ × ℚ => p.2) =
      ps.map (fun p => p.2 ^ 2) := rfl
  rw [he] at h
  show (0 : ℚ) ≤ (ps.length : ℚ) * (ps.map (fun p => p.2 ^ 2)).sum -
    ((ps.map (fun p => p.2)).sum) ^ 2
  linarith [h]

theorem corr_ineq_iff_abs_lt (sxx syy sxy : ℚ) (hx : 0 < sxx) (hy : 0 < syy) :
    (100 * sxy ^ 2 < 9 * sxx * syy) ↔
      |(sxy : ℝ) / Real.sqrt ((sxx : ℝ) * (syy : ℝ))| < 3 / 10 := by
  have hxy : (0 : ℝ) < (sxx : ℝ) * (syy : ℝ) := by
    have hx' : (0 : ℝ) < (sxx : ℝ) := by exact_mod_cast hx
    have hy' : (0 : ℝ) < (syy : ℝ) := by exact_mod_cast hy
    positivity
  have hS : (0 : ℝ) < Real.sqrt ((sxx : ℝ) * (syy : ℝ)) := Real.sqrt_pos.2 hxy
  have hS2 : Real.sqrt ((sxx : ℝ) * (syy : ℝ)) ^ 2 = (sxx : ℝ) * (syy : ℝ) :=
    Real.sq_sqrt hxy.le
  rw [abs_div, abs_of_nonneg (Real.sqrt_nonneg _), div_lt_iff hS]
  have habs : (0 : ℝ) < 3 / 10 * Real.sqrt ((sxx : ℝ) * (syy : ℝ)) + |(sxy : ℝ)| := by
    have := abs_nonneg (sxy : ℝ)
    nlinarith [hS]
  constructor
  · intro h
    have h' : 100 * (sxy : ℝ) ^ 2 < 9 * (sxx : ℝ) * (syy : ℝ) := by exact_mod_cast h
    nlinarith [sq_abs (sxy : ℝ), hS2, habs, h']
  · intro h
    have h' : 100 * (sxy : ℝ) ^ 2 < 9 * (sxx : ℝ) * (syy : ℝ) := by
      nlinarith [sq_abs (sxy : ℝ), hS2, habs, h]
    exact_mod_cast h'

/-! ### Lemmas: the call traces agree with the functions -/

theorem clean_call_spec (df : DF) :
    clean_data_call df = (clean_data df).map (fun d => ⟨df, d⟩) := by
  unfold clean_data_call clean_data cleanThroughFill
  dsimp only
  cases fillCatStep (fillNumericStep (dropIdCol (dropConstCols (dropDuplicates df)))) with
  | error e => rfl
  | ok d =>
    dsimp only
    cases capStep d with
    | error e => rfl
    | ok d2 =>
      dsimp only
      cases corrDropStep d2 with
      | error e => rfl
      | ok d3 => rfl

theorem engineer_call_spec (df : DF) :
    engineer_features_call df = (engineer_features df).map (fun d => ⟨df, d⟩) := by
  unfold engineer_features_call engineer_features
  dsimp only
  cases deriveRatio df "PricePerBedroom" "Price" "Bedrooms" with
  | error e => rfl
  | ok d1 =>
    dsimp only
    cases deriveRatio d1 "BathroomToBedroom" "Bathrooms" "Bedrooms" with
    | error e => rfl
    | ok d2 =>
      dsimp only
      cases deriveArea d2 with
      | error e => rfl
      | ok d3 =>
        dsimp only
        cases deriveConcat d3 with
        | error e => rfl
        | ok d4 => rfl

theorem colIdx_selectCols_inv (df : DF) (idxs : List ℕ) (m : String) (j : ℕ)
    (hj : colIdx (selectCols df idxs) m = some j) :
    ∃ i, idxs.get? j = some i ∧ hdrAt (selectCols df idxs) j = hdrAt df i := by
  have hlt := colIdx_lt _ _ _ hj
  rw [selectCols_header_length] at hlt
  exact ⟨idxs.get ⟨j, hlt⟩, List.get?_eq_get hlt,
    hdrAt_selectCols df idxs j _ (List.get?_eq_get hlt)⟩

theorem col_dropColsByName (df : DF) (ns : List String) (m : String)
    (hnd : df.nodupNames) (hm : ns.contains m = false) :
    (dropColsByName df ns).col m = df.col m := by
  unfold DF.col
  cases hj : colIdx (dropColsByName df ns) m with
  | none =>
    cases hi : colIdx df m with
    | none => rfl
    | some i =>
      exfalso
      have h1 : hasCol df m = true := by
        unfold hasCol
        rw [hi]
        rfl
      have h2 : hasCol (dropColsByName df ns) m = true :=
        (hasCol_dropColsByName df ns m).2 ⟨h1, hm⟩
      unfold hasCol at h2
      rw [hj] at h2
      cases h2
  | some j =>
    rcases colIdx_selectCols_inv df _ m j hj with ⟨i, hgi, hhdr⟩
    have hiin : i ∈ truePos (df.header.map (fun h => !ns.contains h.name)) :=
      List.get?_mem hgi
    have hilt : i < df.header.length := by
      have := (mem_truePos _ _).1 hiin
      simpa using this.1
    have hname : (hdrAt df i).name = m := by
      rw [← hhdr]
      exact colIdx_name _ _ _ hj
    have hidx : colIdx df m = some i :=
      colIdxAux_of_getD m df.header i ⟨"", .numeric⟩ hnd hilt hname
    rw [hidx]
    exact colCells_selectCols df _ j i hgi

/-- C7: `preprocess_data` raises `KeyError` exactly when `target_col` is
absent; when it is present, the feature table `X` holds exactly the columns
of the input other than `target_col` and `'Id'` (with their cells unchanged)
and `y` is the `target_col` column. -/
theorem preprocess_target_spec (df : DF) (t : String) (hnd : df.nodupNames) :
    (hasCol df t = false →
      featureTargetSplit df t = .error "KeyError" ∧
      ∀ ts perm, (preprocess_data df t ts perm).isOk = false) ∧
    (hasCol df t = true →
      ∃ X, featureTargetSplit df t = .ok (X, df.col t) ∧
        (∀ m, hasCol X m = true ↔ hasCol df m = true ∧ m ≠ t ∧ m ≠ "Id") ∧
        (∀ m, m ≠ t → m ≠ "Id" → X.col m = df.col m)) := by
  constructor
  · intro habs
    have hidx : colIdx df t = none := by
      unfold hasCol at habs
      cases h : colIdx df t
      · rfl
      · rw [h] at habs
        cases habs
    have herr : featureTargetSplit df t = .error "KeyError" := by
      unfold featureTargetSplit
      rw [hidx]
    refine ⟨herr, ?_⟩
    intro ts perm
    unfold preprocess_data
    rw [herr]
    rfl
  · intro hpres
    cases hidx : colIdx df t with
    | none =>
      unfold hasCol at hpres
      rw [hidx] at hpres
      cases hpres
    | some k =>
      set ns := if hasCol df "Id" then [t, "Id"] else [t] with hns
      refine ⟨dropColsByName df ns, ?_, ?_, ?_⟩
      · unfold featureTargetSplit
        rw [hidx]
        unfold DF.col
        rw [hidx]
      · intro m
        rw [hasCol_dropColsByName]
        constructor
        · rintro ⟨h1, h2⟩
          refine ⟨h1, ?_, ?_⟩
          · rintro rfl
            rw [hns] at h2
            split_ifs at h2 <;> simp at h2
          · rintro rfl
            by_cases hid : hasCol df "Id" = true
            · rw [hns, if_pos hid] at h2
              simp at h2
            · rw [hns, if_neg hid] at h2
              exact absurd h1 (by simpa using hid)
        · rintro ⟨h1, h2, h3⟩
          refine ⟨h1, ?_⟩
          rw [hns]
          split_ifs
          · simp [h2, h3]
          · simp [h2]
      · intro m hmt hmid
        refine col_dropColsByName df ns m hnd ?_
        rw [hns]
        split_ifs
        · simp [hmt, hmid]
        · simp [hmt]

/-- C7 witness. -/
theorem preprocess_target_spec_witness :
    ∃ X, featureTargetSplit ⟨[⟨"Price", .numeric⟩], [[some (.num 1)]]⟩ "Price" =
        .ok (X, DF.col ⟨[⟨"Price", .numeric⟩], [[some (.num 1)]]⟩ "Price") ∧
      (∀ m, hasCol X m = true ↔
        hasCol ⟨[⟨"Price", .numeric⟩], [[some (.num 1)]]⟩ m = true ∧ m ≠ "Price" ∧ m ≠ "Id") ∧
      (∀ m, m ≠ "Price" → m ≠ "Id" →
        X.col m = DF.col ⟨[⟨"Price", .numeric⟩], [[some (.num 1)]]⟩ m) :=
  (preprocess_target_spec ⟨[⟨"Price", .numeric⟩], [[some (.num 1)]]⟩ "Price"
    (by decide)).2 (by decide)

theorem ceil_round_dist (x : ℚ) : |(Int.ceil x : ℤ) - round x| ≤ 1 := by
  have hfc : Int.ceil x ≤ Int.floor x + 1 := Int.ceil_le_floor_add_one x
  have h1 : Int.floor x ≤ Int.floor (x + 1 / 2) := Int.floor_mono (by linarith)
  have h2 : Int.floor (x + 1 / 2) < Int.ceil x + 1 := by
    rw [Int.floor_lt]
    push_cast
    have := Int.le_ceil x
    linarith
  rw [round_eq, abs_le]
  omega

theorem selD_perm {α : Type _} (d : α) (l : List α) (perm : List ℕ)
    (h : perm.Perm (List.range l.length)) : (selD d perm l).Perm l := by
  have h1 : (selD d perm l).Perm (selD d (List.range l.length) l) :=
    List.Perm.map _ h
  rwa [selD_range] at h1

theorem splitIndices_ok (n : ℕ) (ts : ℚ) (perm tr te : List ℕ)
    (h : splitIndices n ts perm = .ok (tr, te)) :
    tr = perm.drop (nTestOf n ts) ∧ te = perm.take (nTestOf n ts) ∧
    nTestOf n ts ≠ 0 ∧ n - nTestOf n ts ≠ 0 := by
  unfold splitIndices at h
  dsimp only at h
  split_ifs at h with hc
  push_neg at hc
  simp only [Except.ok.injEq, Prod.mk.injEq] at h
  exact ⟨h.1.symm, h.2.symm, hc.1, hc.2⟩

/-- C8: on any table where `preprocess_data` succeeds, the train and test
rows are a disjoint row-wise partition of the feature table's rows
(`len(X_train) + len(X_test) = N`), the test split has
`ceil(test_size * N)` rows, and for `test_size = 0.2` that is within one
row of `round(0.2 * N)`. The shuffle of `random_state=42` is an arbitrary
permutation `perm` of the row indices. -/
theorem preprocess_split_partition (df X : DF) (y : List Cell) (t : String) (ts : ℚ)
    (perm : List ℕ) (Xtr Xte : DF) (ytr yte : List Cell)
    (hsplit : featureTargetSplit df t = .ok (X, y))
    (hok : preprocess_data df t ts perm = .ok (Xtr, Xte, ytr, yte))
    (hperm : perm.Perm (List.range df.rows.length)) :
    X.rows.length = df.rows.length ∧
    Xtr.rows.length + Xte.rows.length = df.rows.length ∧
    Xte.rows.length = nTestOf df.rows.length ts ∧
    (Xte.rows ++ Xtr.rows).Perm X.rows ∧
    (perm.take (nTestOf df.rows.length ts)).Disjoint
      (perm.drop (nTestOf df.rows.length ts)) ∧
    (0 ≤ ts → |(Xte.rows.length : ℤ) - round (ts * (df.rows.length : ℚ))| ≤ 1) := by
  have hXN : X.rows.length = df.rows.length := by
    unfold featureTargetSplit at hsplit
    cases hidx : colIdx df t with
    | none =>
      rw [hidx] at hsplit
      cases hsplit
    | some k =>
      rw [hidx] at hsplit
      simp only [Except.ok.injEq, Prod.mk.injEq] at hsplit
      rw [← hsplit.1]
      exact selectCols_nrows df _
  unfold preprocess_data at hok
  rw [hsplit] at hok
  dsimp only at hok
  cases hsp : splitIndices X.rows.length ts perm with
  | error e =>
    rw [hsp] at hok
    cases hok
  | ok p =>
    rcases p with ⟨tr, te⟩
    rw [hsp] at hok
    dsimp only at hok
    simp only [Except.ok.injEq, Prod.mk.injEq] at hok
    rcases hok with ⟨htr, hte, _, _⟩
    rw [hXN] at hsp
    rcases splitIndices_ok df.rows.length ts perm tr te hsp with ⟨htr', hte', hk0, hnk⟩
    set k := nTestOf df.rows.length ts with hkdef
    have hplen : perm.length = df.rows.length := by
      have := hperm.length_eq
      simpa using this
    have hkN : k < df.rows.length := by omega
    have hteL : Xte.rows.length = k := by
      rw [← hte]
      show (selD [] te X.rows).length = k
      rw [selD_length, hte', List.length_take, hplen]
      omega
    have htrL : Xtr.rows.length = df.rows.length - k := by
      rw [← htr]
      show (selD [] tr X.rows).length = df.rows.length - k
      rw [selD_length, htr', List.length_drop, hplen]
    refine ⟨hXN, by omega, hteL, ?_, ?_, ?_⟩
    · rw [← hte, ← htr]
      show (selD [] te X.rows ++ selD [] tr X.rows).Perm X.rows
      rw [← selD_append, hte', htr', List.take_append_drop]
      refine selD_perm [] X.rows perm ?_
      rw [hXN]
      exact hperm
    · have hnd : perm.Nodup := hperm.nodup_iff.2 (List.nodup_range _)
      exact List.disjoint_take_drop hnd le_rfl
    · intro hts
      have hx0 : (0 : ℚ) ≤ ts * (df.rows.length : ℚ) :=
        mul_nonneg hts (Nat.cast_nonneg _)
      have hceil : ((nTestOf df.rows.length ts : ℕ) : ℤ) =
          Int.ceil (ts * (df.rows.length : ℚ)) := by
        unfold nTestOf
        exact Int.toNat_of_nonneg (Int.ceil_nonneg hx0)
      rw [hteL, ← hkdef] at *
      rw [hkdef, hceil]
      exact ceil_round_dist _

/-- Concrete table for the C8 witness. -/
def wdf8 : DF :=
  ⟨[⟨"Price", .numeric⟩, ⟨"B", .object⟩],
    [[some (.num 1), some (.str "a")], [some (.num 2), some (.str "b")],
     [some (.num 3), some (.str "c")], [some (.num 4), some (.str "d")],
     [some (.num 5), some (.str "e")]]⟩

/-- Feature table of `wdf8` after removing the target column. -/
def wX8 : DF :=
  ⟨[⟨"B", .object⟩],
    [[some (.str "a")], [some (.str "b")], [some (.str "c")],
     [some (.str "d")], [some (.str "e")]]⟩

/-- C8 witness. -/
theorem preprocess_split_partition_witness :
    wX8.rows.length = wdf8.rows.length :=
  (preprocess_split_partition wdf8 wX8
    [some (.num 1), some (.num 2), some (.num 3), some (.num 4), some (.num 5)]
    "Price" (1 / 5) [2, 0, 4, 1, 3]
    ⟨[⟨"B", .object⟩], [[some (.str "a")], [some (.str "e")], [some (.str "b")],
      [some (.str "d")]]⟩
    ⟨[⟨"B", .object⟩], [[some (.str "c")]]⟩
    [some (.num 1), some (.num 5), some (.num 2), some (.num 4)]
    [some (.num 3)]
    (by with_unfolding_all rfl) (by with_unfolding_all rfl) (by decide)).1

/-- C9: `clean_data` and `engineer_features` copy the table at entry
(`df.copy()`) and assign only to the local copy, so the caller's binding is
unchanged by either call: replayed statement by statement on a state that
carries the caller's binding `arg` alongside the local table `cur`, the
final `arg` equals the input table, and `cur` is the function's result. -/
theorem clean_engineer_frame (df : DF) :
    (∀ s, clean_data_call df = .ok s → s.arg = df ∧ clean_data df = .ok s.cur) ∧
    (∀ s, engineer_features_call df = .ok s → s.arg = df ∧ engineer_features df = .ok s.cur) := by
  constructor
  · intro s h
    rw [clean_call_spec] at h
    cases hc : clean_data df with
    | error e =>
      rw [hc] at h
      cases h
    | ok d =>
      rw [hc] at h
      injection h with h'
      subst h'
      exact ⟨rfl, rfl⟩
  · intro s h
    rw [engineer_call_spec] at h
    cases hc : engineer_features df with
    | error e =>
      rw [hc] at h
      cases h
    | ok d =>
      rw [hc] at h
      injection h with h'
      subst h'
      exact ⟨rfl, rfl⟩

/-- C9 witness. -/
theorem clean_engineer_frame_witness :
    ((⟨⟨[⟨"A", .numeric⟩], [[some (.num 1)], [some (.num 2)]]⟩,
        ⟨[⟨"A", .numeric⟩], [[some (.num 1)], [some (.num 2)]]⟩⟩ : CallSt).arg =
      ⟨[⟨"A", .numeric⟩], [[some (.num 1)], [some (.num 2)]]⟩ ∧
     clean_data ⟨[⟨"A", .numeric⟩], [[some (.num 1)], [some (.num 2)]]⟩ =
      .ok (⟨⟨[⟨"A", .numeric⟩], [[some (.num 1)], [some (.num 2)]]⟩,
        ⟨[⟨"A", .numeric⟩], [[some (.num 1)], [some (.num 2)]]⟩⟩ : CallSt).cur) :=
  (clean_engineer_frame ⟨[⟨"A", .numeric⟩], [[some (.num 1)], [some (.num 2)]]⟩).1
    ⟨⟨[⟨"A", .numeric⟩], [[some (.num 1)], [some (.num 2)]]⟩,
     ⟨[⟨"A", .numeric⟩], [[some (.num 1)], [some (.num 2)]]⟩⟩
    (by with_unfolding_all rfl)

/-! ### C4: the capping stage -/

theorem capCol_ok_col_ne (df out : DF) (nm : String) (h : capCol df nm = .ok out)
    (k : ℕ) (hname : (hdrAt df k).name ≠ nm) : colCells out k = colCells df k := by
  rcases capCol_ok_cases df out nm h with ⟨_, rfl⟩ | ⟨k0, hk0, _, ⟨_, rfl⟩ | ⟨q1, q3, _, _, rfl⟩⟩
  · rfl
  · rfl
  · have hk0name : (hdrAt df k0).name = nm := colIdx_name df nm k0 hk0
    have hne : k0 ≠ k := by
      rintro rfl
      exact hname hk0name
    exact colCells_mapColAt_ne df k0 k _ hne

theorem capCol_ok_col_self (df out : DF) (nm : String) (hwf : df.wf)
    (hnd : df.nodupNames) (h : capCol df nm = .ok out) (k : ℕ)
    (hk : k < df.header.length) (hname : (hdrAt df k).name = nm) :
    (presentNums (colCells df k) = [] → colCells out k = colCells df k) ∧
    (∀ q1 q3, quantile? (colCells df k) (1 / 4) = some q1 →
      quantile? (colCells df k) (3 / 4) = some q3 →
      colCells out k = (colCells df k).map
        (clampCell (q1 - 3 / 2 * (q3 - q1)) (q3 + 3 / 2 * (q3 - q1)))) := by
  have hidx : colIdx df nm = some k :=
    colIdxAux_of_getD nm df.header k ⟨"", .numeric⟩ hnd hk hname
  rcases capCol_ok_cases df out nm h with ⟨hn, rfl⟩ | ⟨k0, hk0, _, hcase⟩
  · rw [hidx] at hn
    cases hn
  · rw [hidx] at hk0
    injection hk0 with hk0
    subst hk0
    rcases hcase with ⟨hemp, rfl⟩ | ⟨q1, q3, hq1, hq3, rfl⟩
    · refine ⟨fun _ => rfl, ?_⟩
      intro q1 q3 hq1 _
      rw [(quantile?_eq_none_iff _ _).2 hemp] at hq1
      cases hq1
    · constructor
      · intro hemp
        rw [(quantile?_eq_none_iff _ _).2 hemp] at hq1
        cases hq1
      · intro q1' q3' hq1' hq3'
        rw [hq1] at hq1'
        rw [hq3] at hq3'
        injection hq1' with hq1'
        injection hq3' with hq3'
        subst hq1'
        subst hq3'
        exact colCells_mapColAt_self df k _ hwf hk

theorem clamp_map_id (cs : List Cell) (lb ub : ℚ)
    (hin : ∀ v ∈ presentNums cs, lb ≤ v ∧ v ≤ ub) : cs.map (clampCell lb ub) = cs := by
  induction cs with
  | nil => rfl
  | cons c cs ih =>
    have hc : clampCell lb ub c = c := by
      match c with
      | none => rfl
      | some (.str s) => rfl
      | some (.num v) =>
        have hv : v ∈ presentNums (some (.num v) :: cs) := by
          unfold presentNums
          exact List.mem_filterMap.2 ⟨some (.num v), List.mem_cons_self _ _, rfl⟩
        rcases hin v hv with ⟨h1, h2⟩
        unfold clampCell
        dsimp only
        rw [if_neg (not_lt.2 h1), if_neg (not_lt.2 h2)]
    have hrest : ∀ v ∈ presentNums cs, lb ≤ v ∧ v ≤ ub := by
      intro v hv
      refine hin v ?_
      unfold presentNums at hv ⊢
      rcases List.mem_filterMap.1 hv with ⟨c0, hc0, he⟩
      exact List.mem_filterMap.2 ⟨c0, List.mem_cons_of_mem _ hc0, he⟩
    rw [List.map_cons, hc, ih hrest]

theorem withinFencesB_bounds (df : DF) (k : ℕ) (q1 q3 : ℚ)
    (hq1 : quantile? (colCells df k) (1 / 4) = some q1)
    (hq3 : quantile? (colCells df k) (3 / 4) = some q3)
    (hfen : withinFencesB df k = true) :
    ∀ v ∈ presentNums (colCells df k),
      q1 - 3 / 2 * (q3 - q1) ≤ v ∧ v ≤ q3 + 3 / 2 * (q3 - q1) := by
  unfold withinFencesB at hfen
  rw [hq1, hq3] at hfen
  intro v hv
  have := List.all_eq_true.1 hfen v hv
  simpa using this

/-- C4: the capping stage of `clean_data` computes, for each of `Price`,
`Price M2`, `AreaNet`, `AreaGross` that is present, the bounds
`Q1 - 1.5*IQR` and `Q3 + 1.5*IQR` once from that column's current
(post-imputation) cells and clamps each out-of-range value to the violated
bound; it keeps the header, removes no rows, leaves every other column
unchanged, skips an all-missing column, and is the identity on a column
already inside its fences. -/
theorem capStep_spec (df out : DF) (hwf : df.wf) (hnd : df.nodupNames)
    (h : capStep df = .ok out) :
    out.header = df.header ∧ out.rows.length = df.rows.length ∧
    (∀ k, k < df.header.length → (hdrAt df k).name ∉ capTargets →
      colCells out k = colCells df k) ∧
    (∀ k, k < df.header.length → (hdrAt df k).name ∈ capTargets →
      (presentNums (colCells df k) = [] → colCells out k = colCells df k) ∧
      (∀ q1 q3, quantile? (colCells df k) (1 / 4) = some q1 →
        quantile? (colCells df k) (3 / 4) = some q3 →
        colCells out k = (colCells df k).map
          (clampCell (q1 - 3 / 2 * (q3 - q1)) (q3 + 3 / 2 * (q3 - q1))) ∧
        (withinFencesB df k = true → colCells out k = colCells df k))) := by
  rcases capStep_ok_parts df out h with ⟨d1, d2, d3, h1, h2, h3, h4⟩
  have hdr1 := capCol_ok_header _ _ _ h1
  have hdr2 := capCol_ok_header _ _ _ h2
  have hdr3 := capCol_ok_header _ _ _ h3
  have hdr4 := capCol_ok_header _ _ _ h4
  have hwf1 := capCol_ok_wf _ _ _ hwf h1
  have hwf2 := capCol_ok_wf _ _ _ hwf1 h2
  have hwf3 := capCol_ok_wf _ _ _ hwf2 h3
  have hnd1 : d1.nodupNames := by
    unfold DF.nodupNames at hnd ⊢
    rw [hdr1]
    exact hnd
  have hnd2 : d2.nodupNames := by
    unfold DF.nodupNames at hnd ⊢
    rw [hdr2, hdr1]
    exact hnd
  have hnd3 : d3.nodupNames := by
    unfold DF.nodupNames at hnd ⊢
    rw [hdr3, hdr2, hdr1]
    exact hnd
  have hhdr1 : ∀ k, hdrAt d1 k = hdrAt df k := by
    intro k
    unfold hdrAt
    rw [hdr1]
  have hhdr2 : ∀ k, hdrAt d2 k = hdrAt df k := by
    intro k
    unfold hdrAt
    rw [hdr2, hdr1]
  have hhdr3 : ∀ k, hdrAt d3 k = hdrAt df k := by
    intro k
    unfold hdrAt
    rw [hdr3, hdr2, hdr1]
  have hlen1 : d1.header.length = df.header.length := by rw [hdr1]
  have hlen2 : d2.header.length = df.header.length := by rw [hdr2, hdr1]
  have hlen3 : d3.header.length = df.header.length := by rw [hdr3, hdr2, hdr1]
  refine ⟨by rw [hdr4, hdr3, hdr2, hdr1], ?_, ?_, ?_⟩
  · rw [capCol_ok_nrows _ _ _ h4, capCol_ok_nrows _ _ _ h3,
      capCol_ok_nrows _ _ _ h2, capCol_ok_nrows _ _ _ h1]
  · intro k hk hnin
    unfold capTargets at hnin
    simp only [List.mem_cons, List.not_mem_nil, or_false] at hnin
    push_neg at hnin
    rcases hnin with ⟨hp, hpm2, han, hag⟩
    rw [capCol_ok_col_ne d3 out "AreaGross" h4 k (by rw [hhdr3]; exact hag),
      capCol_ok_col_ne d2 d3 "AreaNet" h3 k (by rw [hhdr2]; exact han),
      capCol_ok_col_ne d1 d2 "Price M2" h2 k (by rw [hhdr1]; exact hpm2),
      capCol_ok_col_ne df d1 "Price" h1 k hp]
  · intro k hk hin
    have hmain : (presentNums (colCells df k) = [] → colCells out k = colCells df k) ∧
        (∀ q1 q3, quantile? (colCells df k) (1 / 4) = some q1 →
          quantile? (colCells df k) (3 / 4) = some q3 →
          colCells out k = (colCells df k).map
            (clampCell (q1 - 3 / 2 * (q3 - q1)) (q3 + 3 / 2 * (q3 - q1)))) := by
      unfold capTargets at hin
      simp only [List.mem_cons, List.not_mem_nil, or_false] at hin
      rcases hin with hp | hpm2 | han | hag
      · have hstep := capCol_ok_col_self df d1 "Price" hwf hnd h1 k hk hp
        have hrest : colCells out k = colCells d1 k := by
          rw [capCol_ok_col_ne d3 out "AreaGross" h4 k
              (by rw [hhdr3, hp]; decide),
            capCol_ok_col_ne d2 d3 "AreaNet" h3 k (by rw [hhdr2, hp]; decide),
            capCol_ok_col_ne d1 d2 "Price M2" h2 k (by rw [hhdr1, hp]; decide)]
        exact ⟨fun he => by rw [hrest, hstep.1 he],
          fun q1 q3 hq1 hq3 => by rw [hrest, hstep.2 q1 q3 hq1 hq3]⟩
      · have hpre : colCells d1 k = colCells df k :=
          capCol_ok_col_ne df d1 "Price" h1 k (by rw [hpm2]; decide)
        have hstep := capCol_ok_col_self d1 d2 "Price M2" hwf1 hnd1 h2 k
          (by rw [hlen1]; exact hk) (by rw [hhdr1]; exact hpm2)
        rw [hpre] at hstep
        have hrest : colCells out k = colCells d2 k := by
          rw [capCol_ok_col_ne d3 out "AreaGross" h4 k
              (by rw [hhdr3, hpm2]; decide),
            capCol_ok_col_ne d2 d3 "AreaNet" h3 k (by rw [hhdr2, hpm2]; decide)]
        exact ⟨fun he => by rw [hrest, hstep.1 he],
          fun q1 q3 hq1 hq3 => by rw [hrest, hstep.2 q1 q3 hq1 hq3]⟩
      · have hpre : colCells d2 k = colCells df k := by
          rw [capCol_ok_col_ne d1 d2 "Price M2" h2 k (by rw [hhdr1, han]; decide),
            capCol_ok_col_ne df d1 "Price" h1 k (by rw [han]; decide)]
        have hstep := capCol_ok_col_self d2 d3 "AreaNet" hwf2 hnd2 h3 k
          (by rw [hlen2]; exact hk) (by rw [hhdr2]; exact han)
        rw [hpre] at hstep
        have hrest : colCells out k = colCells d3 k := by
          rw [capCol_ok_col_ne d3 out "AreaGross" h4 k (by rw [hhdr3, han]; decide)]
        exact ⟨fun he => by rw [hrest, hstep.1 he],
          fun q1 q3 hq1 hq3 => by rw [hrest, hstep.2 q1 q3 hq1 hq3]⟩
      · have hpre : colCells d3 k = colCells df k := by
          rw [capCol_ok_col_ne d2 d3 "AreaNet" h3 k (by rw [hhdr2, hag]; decide),
            capCol_ok_col_ne d1 d2 "Price M2" h2 k (by rw [hhdr1, hag]; decide),
            capCol_ok_col_ne df d1 "Price" h1 k (by rw [hag]; decide)]
        have hstep := capCol_ok_col_self d3 out "AreaGross" hwf3 hnd3 h4 k
          (by rw [hlen3]; exact hk) (by rw [hhdr3]; exact hag)
        rw [hpre] at hstep
        exact ⟨hstep.1, hstep.2⟩
    refine ⟨hmain.1, ?_⟩
    intro q1 q3 hq1 hq3
    refine ⟨hmain.2 q1 q3 hq1 hq3, ?_⟩
    intro hfen
    rw [hmain.2 q1 q3 hq1 hq3,
      clamp_map_id _ _ _ (withinFencesB_bounds df k q1 q3 hq1 hq3 hfen)]

/-- C4 witness. -/
theorem capStep_spec_witness :
    (⟨[⟨"Price", .numeric⟩, ⟨"X", .numeric⟩],
      [[some (.num 5), some (.num 1)], [some (.num 5), some (.num 2)],
       [some (.num 5), some (.num 3)], [some (.num 5), some (.num 4)],
       [some (.num 9), some (.num 5)]]⟩ : DF).header =
    (⟨[⟨"Price", .numeric⟩, ⟨"X", .numeric⟩],
      [[some (.num 5), some (.num 1)], [some (.num 5), some (.num 2)],
       [some (.num 5), some (.num 3)], [some (.num 5), some (.num 4)],
       [some (.num 9), some (.num 5)]]⟩ : DF).header :=
  (capStep_spec
    ⟨[⟨"Price", .numeric⟩, ⟨"X", .numeric⟩],
      [[some (.num 5), some (.num 1)], [some (.num 5), some (.num 2)],
       [some (.num 5), some (.num 3)], [some (.num 5), some (.num 4)],
       [some (.num 9), some (.num 5)]]⟩
    ⟨[⟨"Price", .numeric⟩, ⟨"X", .numeric⟩],
      [[some (.num 5), some (.num 1)], [some (.num 5), some (.num 2)],
       [some (.num 5), some (.num 3)], [some (.num 5), some (.num 4)],
       [some (.num 5), some (.num 5)]]⟩
    (by decide) (by decide) (by with_unfolding_all rfl)).1.symm ▸ rfl

/-! ### C6: the low-correlation drop of `Price M2` -/

theorem dropsPriceM2_iff_real (m : DF) :
    dropsPriceM2 m ↔
      (hasCol m "Price M2" = true ∧ hasCol m "Price" = true ∧
        2 ≤ (priceCorrPairs m).length ∧
        (priceCorrStats m).1 ≠ 0 ∧ (priceCorrStats m).2.1 ≠ 0 ∧
        |((priceCorrStats m).2.2 : ℝ) /
          Real.sqrt (((priceCorrStats m).1 : ℝ) * ((priceCorrStats m).2.1 : ℝ))| < 3 / 10) := by
  unfold dropsPriceM2
  constructor
  · rintro ⟨h1, h2, h3, h4, h5, h6⟩
    have hx : 0 < (priceCorrStats m).1 :=
      lt_of_le_of_ne (corrStats_fst_nonneg _) (Ne.symm h4)
    have hy : 0 < (priceCorrStats m).2.1 :=
      lt_of_le_of_ne (corrStats_snd_nonneg _) (Ne.symm h5)
    exact ⟨h1, h2, h3, h4, h5, (corr_ineq_iff_abs_lt _ _ _ hx hy).1 h6⟩
  · rintro ⟨h1, h2, h3, h4, h5, h6⟩
    have hx : 0 < (priceCorrStats m).1 :=
      lt_of_le_of_ne (corrStats_fst_nonneg _) (Ne.symm h4)
    have hy : 0 < (priceCorrStats m).2.1 :=
      lt_of_le_of_ne (corrStats_snd_nonneg _) (Ne.symm h5)
    exact ⟨h1, h2, h3, h4, h5, (corr_ineq_iff_abs_lt _ _ _ hx hy).2 h6⟩

/-- C6: writing `mid` for the table after `clean_data`'s capping stage,
`clean_data` drops the `Price M2` column exactly when `Price M2` and
`Price` are both present in `mid` and their Pearson correlation
`sxy / sqrt(sxx*syy)` is well defined (at least two complete pairs, both
variances nonzero) with absolute value below 0.3; in every other case the
result is `mid` itself, so `Price M2` keeps the values it had after
capping. -/
theorem corr_drop_spec (df d mid out : DF)
    (hfill : cleanThroughFill df = .ok d) (hcap : capStep d = .ok mid)
    (hout : clean_data df = .ok out) :
    (out = dropColsByName mid ["Price M2"] ∧
      hasCol mid "Price M2" = true ∧ hasCol mid "Price" = true ∧
      2 ≤ (priceCorrPairs mid).length ∧
      (priceCorrStats mid).1 ≠ 0 ∧ (priceCorrStats mid).2.1 ≠ 0 ∧
      |((priceCorrStats mid).2.2 : ℝ) /
        Real.sqrt (((priceCorrStats mid).1 : ℝ) * ((priceCorrStats mid).2.1 : ℝ))| < 3 / 10) ∨
    (out = mid ∧
      ¬ (hasCol mid "Price M2" = true ∧ hasCol mid "Price" = true ∧
        2 ≤ (priceCorrPairs mid).length ∧
        (priceCorrStats mid).1 ≠ 0 ∧ (priceCorrStats mid).2.1 ≠ 0 ∧
        |((priceCorrStats mid).2.2 : ℝ) /
          Real.sqrt (((priceCorrStats mid).1 : ℝ) * ((priceCorrStats mid).2.1 : ℝ))| < 3 / 10)) := by
  unfold clean_data at hout
  rw [hfill] at hout
  dsimp only at hout
  rw [hcap] at hout
  dsimp only at hout
  rcases corrDropStep_ok_cases mid out hout with ⟨hd, he⟩ | ⟨hd, he⟩
  · exact Or.inl ⟨he, (dropsPriceM2_iff_real mid).1 hd⟩
  · refine Or.inr ⟨he, ?_⟩
    intro hc
    exact hd ((dropsPriceM2_iff_real mid).2 hc)

/-- Concrete table for the C6 witness. -/
def wdf6 : DF := ⟨[⟨"A", .numeric⟩], [[some (.num 1)], [some (.num 2)]]⟩

/-- C6 witness. -/
theorem corr_drop_spec_witness :
    wdf6 = wdf6 ∨ wdf6 = dropColsByName wdf6 ["Price M2"] := by
  rcases corr_drop_spec wdf6 wdf6 wdf6 wdf6 (by with_unfolding_all rfl)
      (by with_unfolding_all rfl) (by with_unfolding_all rfl) with ⟨h, _⟩ | ⟨h, _⟩
  · exact Or.inr h
  · exact Or.inl h

/-! ### C2: when clean_data succeeds and when it raises -/

theorem presentVals_ne_nil (cs : List Cell) :
    presentVals cs ≠ [] ↔ ∃ v, some v ∈ cs := by
  unfold presentVals
  rw [Ne, List.filterMap_eq_nil]
  constructor
  · intro h
    push_neg at h
    rcases h with ⟨c, hc, hne⟩
    cases c with
    | none => exact absurd rfl hne
    | some v => exact ⟨v, hc⟩
  · rintro ⟨v, hv⟩ hall
    exact absurd (hall (some v) hv) (by simp)

/-- Column provenance: every column of `a` is one of `b`'s columns (same
header), and a present value in the `b` column guarantees one in the `a`
column. -/
def colsFrom (b a : DF) : Prop :=
  ∀ j, j < a.header.length → ∃ i, i < b.header.length ∧ hdrAt a j = hdrAt b i ∧
    (presentVals (colCells b i) ≠ [] → presentVals (colCells a j) ≠ [])

theorem colsFrom_trans (a b c : DF) (h1 : colsFrom a b) (h2 : colsFrom b c) :
    colsFrom a c := by
  intro j hj
  rcases h2 j hj with ⟨i, hi, hhdr, hpres⟩
  rcases h1 i hi with ⟨i0, hi0, hhdr0, hpres0⟩
  exact ⟨i0, hi0, hhdr.trans hhdr0, fun h => hpres (hpres0 h)⟩

theorem colsFrom_dropDuplicates (df : DF) : colsFrom df (dropDuplicates df) := by
  intro j hj
  refine ⟨j, hj, rfl, ?_⟩
  intro h
  rw [presentVals_ne_nil] at h ⊢
  rcases h with ⟨v, hv⟩
  unfold colCells at hv ⊢
  rcases List.mem_map.1 hv with ⟨r, hr, he⟩
  exact ⟨v, List.mem_map.2 ⟨r, (mem_rows_dropDuplicates df r).2 hr, he⟩⟩

theorem colsFrom_selectCols (df : DF) (idxs : List ℕ)
    (hidx : ∀ i ∈ idxs, i < df.header.length) : colsFrom df (selectCols df idxs) := by
  intro j hj
  rw [selectCols_header_length] at hj
  have hget : idxs.get? j = some (idxs.get ⟨j, hj⟩) := List.get?_eq_get hj
  refine ⟨idxs.get ⟨j, hj⟩, hidx _ (List.get_mem idxs j hj),
    hdrAt_selectCols df idxs j _ hget, ?_⟩
  rw [colCells_selectCols df idxs j _ hget]
  exact id

theorem fillFn_some (df : DF) (k : ℕ) (v : Val) :
    (if (hdrAt df k).dtype = .numeric
      then fillCellNum (median? (colCells df k)) else id) (some v) = some v := by
  split_ifs
  · cases median? (colCells df k) with
    | none => rfl
    | some m => rfl
  · rfl

theorem catFn_some (df : DF) (k : ℕ) (v : Val) :
    (if (hdrAt df k).dtype = .object
      then fillCellStr (modeStr? (colCells df k)) else id) (some v) = some v := by
  split_ifs
  · cases modeStr? (colCells df k) with
    | none => rfl
    | some m => rfl
  · rfl

theorem colsFrom_fillNumericStep (df : DF) (hwf : df.wf) :
    colsFrom df (fillNumericStep df) := by
  intro j hj
  rw [show (fillNumericStep df).header = df.header from rfl] at hj
  refine ⟨j, hj, rfl, ?_⟩
  rw [fillNumericStep_colCells df hwf j hj]
  intro h
  rw [presentVals_ne_nil] at h ⊢
  rcases h with ⟨v, hv⟩
  exact ⟨v, List.mem_map.2 ⟨some v, hv, fillFn_some df j v⟩⟩

theorem colsFrom_fillCatStep (df out : DF) (hwf : df.wf)
    (h : fillCatStep df = .ok out) : colsFrom df out := by
  intro j hj
  rw [fillCatStep_ok_header df out h] at hj
  refine ⟨j, hj, by unfold hdrAt; rw [fillCatStep_ok_header df out h], ?_⟩
  rw [fillCatStep_ok_colCells df out hwf h j hj]
  intro hne
  rw [presentVals_ne_nil] at hne ⊢
  rcases hne with ⟨v, hv⟩
  exact ⟨v, List.mem_map.2 ⟨some v, hv, catFn_some df j v⟩⟩

theorem dropConstCols_wf (df : DF) : (dropConstCols df).wf :=
  selectCols_wf df _

theorem dropIdCol_wf (df : DF) (h : df.wf) : (dropIdCol df).wf := by
  unfold dropIdCol
  split_ifs
  · exact selectCols_wf df _
  · exact h

theorem colsFrom_dropConstCols (df : DF) : colsFrom df (dropConstCols df) :=
  colsFrom_selectCols df _ (truePos_range_bounds _ _)

theorem colsFrom_dropIdCol (df : DF) : colsFrom df (dropIdCol df) := by
  unfold dropIdCol
  split_ifs
  · exact colsFrom_selectCols df _ (truePos_bounds _ _)
  · intro j hj
    exact ⟨j, hj, rfl, id⟩

theorem capCol_ok_exists (d : DF) (nm : String)
    (hdt : ∀ k, colIdx d nm = some k → (hdrAt d k).dtype ≠ .object) :
    ∃ o, capCol d nm = .ok o ∧ o.header = d.header := by
  unfold capCol
  cases hidx : colIdx d nm with
  | none => exact ⟨d, rfl, rfl⟩
  | some k =>
    dsimp only
    rw [if_neg (hdt k hidx)]
    cases quantile? (colCells d k) (1 / 4) with
    | none => exact ⟨d, rfl, rfl⟩
    | some q1 =>
      cases quantile? (colCells d k) (3 / 4) with
      | none => exact ⟨d, rfl, rfl⟩
      | some q3 => exact ⟨_, rfl, rfl⟩

theorem corrDropStep_ok_exists (d : DF)
    (hdt : ∀ k, colIdx d "Price M2" = some k ∨ colIdx d "Price" = some k →
      (hdrAt d k).dtype ≠ .object) :
    ∃ o, corrDropStep d = .ok o := by
  unfold corrDropStep
  cases h1 : colIdx d "Price M2" with
  | none => exact ⟨d, rfl⟩
  | some k1 =>
    cases h2 : colIdx d "Price" with
    | none => exact ⟨d, rfl⟩
    | some k2 =>
      dsimp only
      rw [if_neg (by
        push_neg
        exact ⟨hdt k1 (Or.inl h1), hdt k2 (Or.inr h2)⟩)]
      split_ifs
      · exact ⟨d, rfl⟩
      · exact ⟨_, rfl⟩
      · exact ⟨d, rfl⟩

/-- C2 counterexample: `clean_data` raises on a table with an object-dtype
column whose values are all missing (`mode()` is empty, `mode()[0]` is a
`KeyError`), so the cleaning steps are not all silently skipped when their
preconditions fail. -/
theorem clean_data_raises_counterexample :
    clean_data ⟨[⟨"B", .object⟩], [[none]]⟩ = .error "KeyError: 0" := by
  with_unfolding_all rfl

/-- C2 amended: `clean_data` returns a table (raises nothing) whenever
every object-dtype column has at least one present value and every column
named `Price`, `Price M2`, `AreaNet` or `AreaGross` has numeric dtype;
outside these conditions it can raise (`KeyError` from `mode()[0]` on an
all-missing object column, `TypeError` from `quantile`/`corr` on an
object-dtype price/area column). -/
theorem clean_data_ok_amended (df : DF)
    (hobj : ∀ k, k < df.header.length → (hdrAt df k).dtype = .object →
      presentVals (colCells df k) ≠ [])
    (hnum : ∀ k, k < df.header.length → (hdrAt df k).name ∈ capTargets →
      (hdrAt df k).dtype = .numeric) :
    ∃ out, clean_data df = .ok out := by
  set d3 := dropIdCol (dropConstCols (dropDuplicates df)) with hd3
  set d4 := fillNumericStep d3 with hd4
  have hwf3 : d3.wf := dropIdCol_wf _ (dropConstCols_wf _)
  have hwf4 : d4.wf := fillNumericStep_wf _ hwf3
  have hfrom4 : colsFrom df d4 := by
    refine colsFrom_trans _ _ _ ?_ (colsFrom_fillNumericStep d3 hwf3)
    refine colsFrom_trans _ _ _ ?_ (colsFrom_dropIdCol _)
    exact colsFrom_trans _ _ _ (colsFrom_dropDuplicates df) (colsFrom_dropConstCols _)
  have hguard : (List.range d4.header.length).all (fun k =>
      (hdrAt d4 k).dtype = .object → !(presentVals (colCells d4 k)).isEmpty) = true := by
    rw [List.all_eq_true]
    intro k hk
    rw [List.mem_range] at hk
    rw [decide_eq_true_eq]
    intro hdt
    rcases hfrom4 k hk with ⟨i, hi, hhdr, hpres⟩
    rw [Bool.not_eq_true', List.isEmpty_eq_false]
    refine hpres (hobj i hi ?_)
    rw [← hhdr]
    exact hdt
  have hd5 : fillCatStep d4 = .ok ⟨d4.header, d4.rows.map (applyFns
      ((List.range d4.header.length).map (fun k =>
        if (hdrAt d4 k).dtype = .object
        then fillCellStr (modeStr? (colCells d4 k)) else id)))⟩ := by
    unfold fillCatStep
    rw [if_pos hguard]
  set d5 : DF := ⟨d4.header, d4.rows.map (applyFns
      ((List.range d4.header.length).map (fun k =>
        if (hdrAt d4 k).dtype = .object
        then fillCellStr (modeStr? (colCells d4 k)) else id)))⟩ with hd5def
  have hwf5 : d5.wf := fillCatStep_ok_wf d4 d5 hwf4 hd5
  have hfrom5 : colsFrom df d5 :=
    colsFrom_trans _ _ _ hfrom4 (colsFrom_fillCatStep d4 d5 hwf4 hd5)
  have htarget : ∀ (d : DF), d.header = d5.header → ∀ nm, nm ∈ capTargets →
      ∀ k, colIdx d nm = some k → (hdrAt d k).dtype ≠ .object := by
    intro d hhd nm hnm k hidx
    have hk : k < d.header.length := colIdx_lt _ _ _ hidx
    have hname : (hdrAt d k).name = nm := colIdx_name _ _ _ hidx
    have hk5 : k < d5.header.length := by
      rw [← hhd]
      exact hk
    have hsame : hdrAt d k = hdrAt d5 k := by
      unfold hdrAt
      rw [hhd]
    rcases hfrom5 k hk5 with ⟨i, hi, hhdr, _⟩
    rw [hsame, hhdr]
    rw [hsame, hhdr] at hname
    rw [hnum i hi (by rw [hname]; exact hnm)]
    intro hcontra
    cases hcontra
  rcases capCol_ok_exists d5 "Price" (htarget d5 rfl "Price" (by decide)) with ⟨e1, he1, hh1⟩
  rcases capCol_ok_exists e1 "Price M2" (htarget e1 hh1 "Price M2" (by decide)) with ⟨e2, he2, hh2⟩
  rcases capCol_ok_exists e2 "AreaNet" (htarget e2 (hh2.trans hh1) "AreaNet" (by decide)) with ⟨e3, he3, hh3⟩
  rcases capCol_ok_exists e3 "AreaGross" (htarget e3 ((hh3.trans hh2).trans hh1) "AreaGross" (by decide)) with ⟨e4, he4, hh4⟩
  have hcap : capStep d5 = .ok e4 := by
    unfold capStep
    rw [he1]
    dsimp only
    rw [he2]
    dsimp only
    rw [he3]
    dsimp only
    exact he4
  rcases corrDropStep_ok_exists e4 (by
    intro k hk
    rcases hk with hk | hk
    · exact htarget e4 (((hh4.trans hh3).trans hh2).trans hh1) "Price M2" (by decide) k hk
    · exact htarget e4 (((hh4.trans hh3).trans hh2).trans hh1) "Price" (by decide) k hk) with ⟨o, ho⟩
  refine ⟨o, ?_⟩
  unfold clean_data cleanThroughFill
  rw [← hd3, ← hd4, hd5]
  dsimp only
  rw [hcap]
  dsimp only
  exact ho

/-- C2 witness (for the amended theorem). -/
theorem clean_data_ok_amended_witness :
    ∃ out, clean_data ⟨[⟨"Price", .numeric⟩, ⟨"B", .object⟩],
      [[some (.num 1), some (.str "x")], [some (.num 2), none]]⟩ = .ok out :=
  clean_data_ok_amended
    ⟨[⟨"Price", .numeric⟩, ⟨"B", .object⟩],
      [[some (.num 1), some (.str "x")], [some (.num 2), none]]⟩
    (by decide) (by decide)

/-! ### C10: dedup runs before the Id drop -/

theorem not_nodup_of_get? {α : Type _} (l : List α) (i j : ℕ) (a : α) (hne : i ≠ j)
    (hi : l.get? i = some a) (hj : l.get? j = some a) : ¬ l.Nodup := by
  intro hnd
  rcases List.get?_eq_some.1 hi with ⟨hilt, hig⟩
  rcases List.get?_eq_some.1 hj with ⟨hjlt, hjg⟩
  have heq : (⟨i, hilt⟩ : Fin l.length) = ⟨j, hjlt⟩ :=
    (List.Nodup.get_inj_iff hnd).1 (hig.trans hjg.symm)
  exact hne (congrArg Fin.val heq)

/-- Rows that agree on every non-`Id` column of `df`. -/
def eqOffId (df : DF) (r1 r2 : Row) : Prop :=
  ∀ k, k < df.header.length → (hdrAt df k).name ≠ "Id" → cellAt r1 k = cellAt r2 k

theorem eqOffId_selectCols (df : DF) (idxs : List ℕ) (r1 r2 : Row)
    (hidx : ∀ i ∈ idxs, i < df.header.length) (h : eqOffId df r1 r2) :
    eqOffId (selectCols df idxs) (selD none idxs r1) (selD none idxs r2) := by
  intro j hj hname
  rw [selectCols_header_length] at hj
  have hget : idxs.get? j = some (idxs.get ⟨j, hj⟩) := List.get?_eq_get hj
  rw [cellAt_selD r1 idxs j _ hget, cellAt_selD r2 idxs j _ hget]
  rw [hdrAt_selectCols df idxs j _ hget] at hname
  exact h _ (hidx _ (List.get_mem idxs j hj)) hname

theorem hasCol_dropIdCol (df : DF) : hasCol (dropIdCol df) "Id" = false := by
  unfold dropIdCol
  split_ifs with hc
  · by_cases h2 : hasCol (dropColsByName df ["Id"]) "Id" = true
    · rcases (hasCol_dropColsByName df ["Id"] "Id").1 h2 with ⟨_, hcontra⟩
      simp at hcontra
    · simpa using h2
  · simpa using hc

theorem hdrAt_mem (df : DF) (p : ℕ) (hp : p < df.header.length) :
    hdrAt df p ∈ df.header := by
  unfold hdrAt
  have hg := List.get_mem df.header p hp
  rwa [List.getD_eq_get?, List.get?_eq_get hp, Option.getD_some]

theorem row_eq_of_eqOffId (d : DF) (s1 s2 : Row) (h : eqOffId d s1 s2)
    (hnoid : hasCol d "Id" = false)
    (hl1 : s1.length = d.header.length) (hl2 : s2.length = d.header.length) :
    s1 = s2 := by
  refine List.ext ?_
  intro p
  by_cases hp : p < d.header.length
  · have hname : (hdrAt d p).name ≠ "Id" := by
      intro hcontra
      rw [(hasCol_iff d "Id").2 ⟨hdrAt d p, hdrAt_mem d p hp, hcontra⟩] at hnoid
      cases hnoid
    have hcell := h p hp hname
    have h1p : p < s1.length := by
      rw [hl1]
      exact hp
    have h2p : p < s2.length := by
      rw [hl2]
      exact hp
    unfold cellAt at hcell
    rw [List.get?_eq_get h1p, List.get?_eq_get h2p] at hcell ⊢
    simpa using hcell
  · rw [List.get?_eq_none.2 (by omega), List.get?_eq_none.2 (by omega)]

theorem capCol_ok_rows_map (df out : DF) (nm : String) (h : capCol df nm = .ok out) :
    ∃ g, out.rows = df.rows.map g := by
  rcases capCol_ok_cases df out nm h with ⟨_, rfl⟩ | ⟨k, _, _, ⟨_, rfl⟩ | ⟨q1, q3, _, _, rfl⟩⟩
  · exact ⟨id, (List.map_id _).symm⟩
  · exact ⟨id, (List.map_id _).symm⟩
  · exact ⟨_, rfl⟩

theorem capStep_ok_rows_map (df out : DF) (h : capStep df = .ok out) :
    ∃ g, out.rows = df.rows.map g := by
  rcases capStep_ok_parts df out h with ⟨d1, d2, d3, h1, h2, h3, h4⟩
  rcases capCol_ok_rows_map _ _ _ h1 with ⟨g1, hg1⟩
  rcases capCol_ok_rows_map _ _ _ h2 with ⟨g2, hg2⟩
  rcases capCol_ok_rows_map _ _ _ h3 with ⟨g3, hg3⟩
  rcases capCol_ok_rows_map _ _ _ h4 with ⟨g4, hg4⟩
  refine ⟨((g4 ∘ g3) ∘ g2) ∘ g1, ?_⟩
  rw [hg4, hg3, hg2, hg1, List.map_map, List.map_map, List.map_map]

theorem corrDropStep_ok_rows_map (df out : DF) (h : corrDropStep df = .ok out) :
    ∃ g, out.rows = df.rows.map g := by
  rcases corrDropStep_ok_cases df out h with ⟨_, he⟩ | ⟨_, he⟩
  · exact ⟨selD none _, by rw [he]; rfl⟩
  · exact ⟨id, by rw [he]; exact (List.map_id _).symm⟩

/-- C10: duplicate-row removal happens before the `Id` column is dropped,
so two rows that differ only in `Id` both survive deduplication and become
exactly identical rows of the cleaned table once `Id` is gone: whenever
`clean_data` succeeds on a table containing such a pair, its output has
duplicate rows. -/
theorem dedup_before_id_drop (df out : DF) (r1 r2 : Row)
    (hr1 : r1 ∈ df.rows) (hr2 : r2 ∈ df.rows) (hne : r1 ≠ r2)
    (hid : hasCol df "Id" = true)
    (hoff : ∀ k, k < df.header.length → (hdrAt df k).name ≠ "Id" →
      cellAt r1 k = cellAt r2 k)
    (h : clean_data df = .ok out) :
    ¬ out.rows.Nodup := by
  clear hid
  set d1 := dropDuplicates df with hd1
  have hm1 : r1 ∈ d1.rows := (mem_rows_dropDuplicates df r1).2 hr1
  have hm2 : r2 ∈ d1.rows := (mem_rows_dropDuplicates df r2).2 hr2
  rcases List.mem_iff_get?.1 hm1 with ⟨i1, hi1⟩
  rcases List.mem_iff_get?.1 hm2 with ⟨i2, hi2⟩
  have hij : i1 ≠ i2 := by
    rintro rfl
    rw [hi1] at hi2
    exact hne (Option.some.inj hi2)
  have hoff1 : eqOffId d1 r1 r2 := hoff
  set idxs1 := truePos ((List.range d1.header.length).map
    (fun k => decide (nuniqueAt d1 k ≠ 1))) with hidxs1
  set d2 := dropConstCols d1 with hd2
  have hd2sel : d2 = selectCols d1 idxs1 := rfl
  set d3 := dropIdCol d2 with hd3
  have hoff2 : eqOffId d2 (selD none idxs1 r1) (selD none idxs1 r2) := by
    rw [hd2sel]
    exact eqOffId_selectCols d1 idxs1 r1 r2 (by
      rw [hidxs1]
      exact truePos_range_bounds _ _) hoff1
  have hstep3 : ∃ f : Row → Row, d3.rows = d1.rows.map f ∧
      eqOffId d3 (f r1) (f r2) ∧
      (f r1).length = d3.header.length ∧ (f r2).length = d3.header.length := by
    rw [hd3]
    unfold dropIdCol
    split_ifs with hc
    · set idxs2 := truePos (d2.header.map (fun h => !(["Id"] : List String).contains h.name))
        with hidxs2
      refine ⟨(selD none idxs2) ∘ (selD none idxs1), ?_, ?_, ?_, ?_⟩
      · show (selectCols d2 idxs2).rows = d1.rows.map _
        rw [hd2sel]
        show ((selectCols d1 idxs1).rows.map (selD none idxs2)) = _
        rw [show (selectCols d1 idxs1).rows = d1.rows.map (selD none idxs1) from rfl,
          List.map_map]
      · exact eqOffId_selectCols d2 idxs2 _ _ (by
          rw [hidxs2]
          exact truePos_bounds _ _) hoff2
      · show (selD none idxs2 (selD none idxs1 r1)).length =
          (selectCols d2 idxs2).header.length
        rw [selD_length, selectCols_header_length]
      · show (selD none idxs2 (selD none idxs1 r2)).length =
          (selectCols d2 idxs2).header.length
        rw [selD_length, selectCols_header_length]
    · refine ⟨selD none idxs1, ?_, hoff2, ?_, ?_⟩
      · rw [hd2sel]
        rfl
      · rw [selD_length, hd2sel, selectCols_header_length]
      · rw [selD_length, hd2sel, selectCols_header_length]
  rcases hstep3 with ⟨f, hfrows, hfoff, hfl1, hfl2⟩
  have hnoid3 : hasCol d3 "Id" = false := by
    rw [hd3]
    exact hasCol_dropIdCol d2
  have hfeq : f r1 = f r2 := row_eq_of_eqOffId d3 _ _ hfoff hnoid3 hfl1 hfl2
  set d4 := fillNumericStep d3 with hd4
  have hm4 : d4.rows = d3.rows.map (applyFns ((List.range d3.header.length).map (fun k =>
      if (hdrAt d3 k).dtype = .numeric
      then fillCellNum (median? (colCells d3 k)) else id))) := rfl
  unfold clean_data at h
  cases hfill : cleanThroughFill df with
  | error e =>
    rw [hfill] at h
    cases h
  | ok d5 =>
    rw [hfill] at h
    dsimp only at h
    have hfill' : fillCatStep d4 = .ok d5 := hfill
    have hm5 := fillCatStep_ok_rows _ _ hfill'
    cases hcap : capStep d5 with
    | error e =>
      rw [hcap] at h
      cases h
    | ok d6 =>
      rw [hcap] at h
      dsimp only at h
      rcases capStep_ok_rows_map _ _ hcap with ⟨g6, hg6⟩
      rcases corrDropStep_ok_rows_map _ _ h with ⟨g7, hg7⟩
      have hm4e : ∃ m4, d4.rows = d3.rows.map m4 := ⟨_, hm4⟩
      have hm5e : ∃ m5, d5.rows = d4.rows.map m5 := ⟨_, hm5⟩
      rcases hm4e with ⟨m4, hm4e⟩
      rcases hm5e with ⟨m5, hm5e⟩
      have hout : out.rows = d3.rows.map (((g7 ∘ g6) ∘ m5) ∘ m4) := by
        rw [hg7, hg6, hm5e, hm4e, List.map_map, List.map_map, List.map_map]
      have ho1 : out.rows.get? i1 = some ((((g7 ∘ g6) ∘ m5) ∘ m4) (f r1)) := by
        rw [hout, List.get?_map, hfrows, List.get?_map, hi1]
        rfl
      have ho2 : out.rows.get? i2 = some ((((g7 ∘ g6) ∘ m5) ∘ m4) (f r2)) := by
        rw [hout, List.get?_map, hfrows, List.get?_map, hi2]
        rfl
      refine not_nodup_of_get? _ i1 i2 _ hij ho1 ?_
      rw [ho2, hfeq]

/-- C10 witness. -/
theorem dedup_before_id_drop_witness :
    ¬ (⟨[⟨"A", .numeric⟩],
        [[some (.num 7)], [some (.num 7)], [some (.num 8)]]⟩ : DF).rows.Nodup :=
  dedup_before_id_drop
    ⟨[⟨"Id", .numeric⟩, ⟨"A", .numeric⟩],
      [[some (.num 1), some (.num 7)], [some (.num 2), some (.num 7)],
       [some (.num 3), some (.num 8)]]⟩
    ⟨[⟨"A", .numeric⟩], [[some (.num 7)], [some (.num 7)], [some (.num 8)]]⟩
    [some (.num 1), some (.num 7)] [some (.num 2), some (.num 7)]
    (by decide) (by decide) (by decide) (by decide) (by decide)
    (by with_unfolding_all rfl)

/-! ### C1: what survives of the post-cleaning invariant -/

theorem foldl_isSome {α β : Type _} (f : Option α → β → Option α)
    (hf : ∀ b c, (f (some b) c).isSome = true) (l : List β) :
    ∀ b : Option α, b.isSome = true → (l.foldl f b).isSome = true := by
  induction l with
  | nil => intro b hb; exact hb
  | cons c l ih =>
    intro b hb
    cases b with
    | none => cases hb
    | some b0 =>
      rw [List.foldl_cons]
      have h1 := hf b0 c
      cases hfb : f (some b0) c with
      | none =>
        rw [hfb] at h1
        cases h1
      | some x =>
        exact ih (some x) rfl

theorem modeStr?_isSome (cs : List Cell) (h : presentStrs cs ≠ []) :
    (modeStr? cs).isSome = true := by
  unfold modeStr?
  dsimp only
  cases hc : List.insertionSort (fun a b : String => a ≤ b) (presentStrs cs).dedup with
  | nil =>
    exfalso
    have hperm := List.perm_insertionSort (fun a b : String => a ≤ b) (presentStrs cs).dedup
    rw [hc] at hperm
    have hded : (presentStrs cs).dedup = [] := hperm.symm.eq_nil
    rcases List.exists_mem_of_ne_nil _ h with ⟨s, hs⟩
    have hmem : s ∈ (presentStrs cs).dedup := List.mem_dedup.2 hs
    rw [hded] at hmem
    cases hmem
  | cons c l =>
    rw [List.foldl_cons]
    refine foldl_isSome _ ?_ l _ ?_
    · intro b c'
      dsimp only
      split_ifs <;> rfl
    · rfl

theorem col_allNone_of_typed_numeric (d : DF) (hty : d.typed) (k : ℕ)
    (hk : k < d.header.length) (hdt : (hdrAt d k).dtype = .numeric)
    (hemp : presentNums (colCells d k) = []) :
    (colCells d k).all (fun c => c.isNone) = true := by
  rw [List.all_eq_true]
  intro c hc
  rcases List.mem_map.1 hc with ⟨r, hr, rfl⟩
  have hok := hty r hr k hk
  cases hcell : cellAt r k with
  | none => simp
  | some v =>
    rw [hcell] at hok
    cases v with
    | num q =>
      exfalso
      have hqmem : q ∈ presentNums (colCells d k) := by
        unfold presentNums
        refine List.mem_filterMap.2 ⟨some (.num q), ?_, rfl⟩
        rw [← hcell]
        exact List.mem_map.2 ⟨r, hr, rfl⟩
      rw [hemp] at hqmem
      cases hqmem
    | str s =>
      exfalso
      have hok' : cellOk (hdrAt d k) (some (.str s)) = true := hok
      unfold cellOk at hok'
      rw [hdt] at hok'
      cases hok'

theorem presentStrs_ne_of_typed (d : DF) (hty : d.typed) (k : ℕ)
    (hk : k < d.header.length) (hdt : (hdrAt d k).dtype = .object)
    (hpres : presentVals (colCells d k) ≠ []) :
    presentStrs (colCells d k) ≠ [] := by
  rw [presentVals_ne_nil] at hpres
  rcases hpres with ⟨v, hv⟩
  rcases List.mem_map.1 hv with ⟨r, hr, hcell⟩
  have hok := hty r hr k hk
  rw [hcell] at hok
  cases v with
  | num q =>
    exfalso
    have hok' : cellOk (hdrAt d k) (some (.num q)) = true := hok
    unfold cellOk at hok'
    rw [hdt] at hok'
    cases hok'
  | str s =>
    intro hnil
    have hsmem : s ∈ presentStrs (colCells d k) := by
      unfold presentStrs
      refine List.mem_filterMap.2 ⟨some (.str s), ?_, rfl⟩
      rw [← hcell]
      exact List.mem_map.2 ⟨r, hr, rfl⟩
    rw [hnil] at hsmem
    cases hsmem

theorem clampCell_isSome (lb ub : ℚ) (c : Cell) :
    (clampCell lb ub c).isSome = c.isSome := by
  cases c with
  | none => rfl
  | some v =>
    cases v with
    | num q => rfl
    | str s => rfl

theorem all_isSome_map_clamp (cs : List Cell) (lb ub : ℚ) :
    ((cs.map (clampCell lb ub)).all (fun c => c.isSome)) = cs.all (fun c => c.isSome) := by
  induction cs with
  | nil => rfl
  | cons c cs ih =>
    rw [List.map_cons, List.all_cons, List.all_cons, ih, clampCell_isSome]

theorem all_isNone_map_clamp (cs : List Cell) (lb ub : ℚ) :
    ((cs.map (clampCell lb ub)).all (fun c => c.isNone)) = cs.all (fun c => c.isNone) := by
  induction cs with
  | nil => rfl
  | cons c cs ih =>
    rw [List.map_cons, List.all_cons, List.all_cons, ih]
    cases c with
    | none => rfl
    | some v =>
      cases v with
      | num q => rfl
      | str s => rfl

theorem fillCellNum_none_eq_id : fillCellNum none = id := by
  funext c
  cases c <;> rfl

theorem hasCol_congr (a b : DF) (h : a.header = b.header) (n : String) :
    hasCol a n = hasCol b n := by
  unfold hasCol colIdx
  rw [h]

theorem fill_cap_corr_missing (d3 d5 d6 out : DF) (hty3 : d3.typed) (hwf3 : d3.wf)
    (hfill : fillCatStep (fillNumericStep d3) = .ok d5)
    (hcap : capStep d5 = .ok d6)
    (hcorr : corrDropStep d6 = .ok out) :
    (hasCol d3 "Id" = false → hasCol out "Id" = false) ∧
    ∀ k, k < out.header.length →
      (colCells out k).all (fun c => c.isSome) = true ∨
      (colCells out k).all (fun c => c.isNone) = true := by
  have hwf4 : (fillNumericStep d3).wf := fillNumericStep_wf d3 hwf3
  have hwf5 : d5.wf := fillCatStep_ok_wf _ _ hwf4 hfill
  have hhdr5 : d5.header = d3.header :=
    fillCatStep_ok_header (fillNumericStep d3) d5 hfill
  have hhdr6 : d6.header = d5.header := capStep_ok_header _ _ hcap
  have hFE5 : ∀ k, k < d3.header.length →
      (colCells d5 k).all (fun c => c.isSome) = true ∨
      (colCells d5 k).all (fun c => c.isNone) = true := by
    intro k hk3
    have hc4 := fillNumericStep_colCells d3 hwf3 k hk3
    have hc5 := fillCatStep_ok_colCells (fillNumericStep d3) d5 hwf4 hfill k hk3
    have hh : hdrAt (fillNumericStep d3) k = hdrAt d3 k := rfl
    rw [hh] at hc5
    cases hdt : (hdrAt d3 k).dtype with
    | numeric =>
      rw [hdt] at hc4 hc5
      rw [if_neg (by intro hco; cases hco), List.map_id] at hc5
      rw [if_pos rfl] at hc4
      cases hmed : median? (colCells d3 k) with
      | none =>
        right
        have hemp : presentNums (colCells d3 k) = [] :=
          (quantile?_eq_none_iff (colCells d3 k) (1 / 2)).1 hmed
        rw [hc5, hc4, hmed, fillCellNum_none_eq_id, List.map_id]
        exact col_allNone_of_typed_numeric d3 hty3 k hk3 hdt hemp
      | some m =>
        left
        rw [hc5, hc4, hmed, List.all_eq_true]
        intro c hcmem
        rcases List.mem_map.1 hcmem with ⟨c0, _, rfl⟩
        cases c0 with
        | none => rfl
        | some v => rfl
    | object =>
      rw [hdt] at hc4 hc5
      rw [if_neg (by intro hco; cases hco), List.map_id] at hc4
      rw [if_pos rfl, hc4] at hc5
      have hguard := fillCatStep_ok_guard (fillNumericStep d3) d5 hfill k hk3 hdt
      rw [hc4] at hguard
      have hstrs := presentStrs_ne_of_typed d3 hty3 k hk3 hdt hguard
      have hmode := modeStr?_isSome (colCells d3 k) hstrs
      cases hm : modeStr? (colCells d3 k) with
      | none =>
        rw [hm] at hmode
        cases hmode
      | some m =>
        left
        rw [hc5, hm, List.all_eq_true]
        intro c hcmem
        rcases List.mem_map.1 hcmem with ⟨c0, _, rfl⟩
        cases c0 with
        | none => rfl
        | some v => rfl
  have hFE6 : ∀ k, k < d6.header.length →
      (colCells d6 k).all (fun c => c.isSome) = true ∨
      (colCells d6 k).all (fun c => c.isNone) = true := by
    intro k hk
    rcases capStep_ok_parts d5 d6 hcap with ⟨e1, e2, e3, g1, g2, g3, g4⟩
    have hwe1 := capCol_ok_wf _ _ _ hwf5 g1
    have hwe2 := capCol_ok_wf _ _ _ hwe1 g2
    have hwe3 := capCol_ok_wf _ _ _ hwe2 g3
    have step : ∀ (a b : DF) (nm : String), a.wf → capCol a nm = .ok b →
        ((colCells a k).all (fun c => c.isSome) = true ∨
         (colCells a k).all (fun c => c.isNone) = true) →
        ((colCells b k).all (fun c => c.isSome) = true ∨
         (colCells b k).all (fun c => c.isNone) = true) := by
      intro a b nm hawf hab hfe
      rcases capCol_ok_colRel a b nm hawf hab k with heq | ⟨lb, ub, hmap⟩
      · rw [heq]
        exact hfe
      · rw [hmap]
        rcases hfe with hfe | hfe
        · left
          rw [all_isSome_map_clamp]
          exact hfe
        · right
          rw [all_isNone_map_clamp]
          exact hfe
    have hk3 : k < d3.header.length := by
      rw [hhdr6, hhdr5] at hk
      exact hk
    exact step e3 d6 _ hwe3 g4 (step e2 e3 _ hwe2 g3 (step e1 e2 _ hwe1 g2
      (step d5 e1 _ hwf5 g1 (hFE5 k hk3))))
  rcases corrDropStep_ok_cases d6 out hcorr with ⟨_, heq⟩ | ⟨_, heq⟩
  · constructor
    · intro hnoid
      rw [heq]
      by_cases hco : hasCol (dropColsByName d6 ["Price M2"]) "Id" = true
      · exfalso
        rcases (hasCol_dropColsByName d6 ["Price M2"] "Id").1 hco with ⟨h6, _⟩
        rw [hasCol_congr d6 d5 hhdr6 "Id", hasCol_congr d5 d3 hhdr5 "Id", hnoid] at h6
        cases h6
      · simpa using hco
    · intro k hk
      rw [heq] at hk ⊢
      unfold dropColsByName at hk ⊢
      rw [selectCols_header_length] at hk
      have hget := List.get?_eq_get hk
      rw [colCells_selectCols d6 _ k _ hget]
      exact hFE6 _ (truePos_bounds (fun hd => !(["Price M2"] : List String).contains hd.name)
        d6.header _ (List.get_mem _ k hk))
  · constructor
    · intro hnoid
      rw [heq, hasCol_congr d6 d5 hhdr6 "Id", hasCol_congr d5 d3 hhdr5 "Id"]
      exact hnoid
    · intro k hk
      rw [heq] at hk ⊢
      exact hFE6 k hk

/-- C1 counterexample: on this table `clean_data` succeeds but its output
still has a missing value (the all-`NaN` numeric column `A` survives the
median imputation untouched), a pair of exactly identical rows and a
single-valued column (capping collapses `Price`, whose quartiles coincide,
onto the constant 5, making rows 0 and 1 identical). -/
theorem clean_invariant_counterexample :
    clean_data ⟨[⟨"A", .numeric⟩, ⟨"Price", .numeric⟩, ⟨"X", .numeric⟩],
      [[none, some (.num 5), some (.num 1)],
       [none, some (.num 9), some (.num 1)],
       [none, some (.num 5), some (.num 2)],
       [none, some (.num 5), some (.num 3)],
       [none, some (.num 5), some (.num 4)]]⟩ =
      .ok ⟨[⟨"A", .numeric⟩, ⟨"Price", .numeric⟩, ⟨"X", .numeric⟩],
      [[none, some (.num 5), some (.num 1)],
       [none, some (.num 5), some (.num 1)],
       [none, some (.num 5), some (.num 2)],
       [none, some (.num 5), some (.num 3)],
       [none, some (.num 5), some (.num 4)]]⟩ ∧
    (⟨[⟨"A", .numeric⟩, ⟨"Price", .numeric⟩, ⟨"X", .numeric⟩],
      [[none, some (.num 5), some (.num 1)],
       [none, some (.num 5), some (.num 1)],
       [none, some (.num 5), some (.num 2)],
       [none, some (.num 5), some (.num 3)],
       [none, some (.num 5), some (.num 4)]]⟩ : DF).hasMissing = true ∧
    (⟨[⟨"A", .numeric⟩, ⟨"Price", .numeric⟩, ⟨"X", .numeric⟩],
      [[none, some (.num 5), some (.num 1)],
       [none, some (.num 5), some (.num 1)],
       [none, some (.num 5), some (.num 2)],
       [none, some (.num 5), some (.num 3)],
       [none, some (.num 5), some (.num 4)]]⟩ : DF).hasDupRows = true ∧
    (⟨[⟨"A", .numeric⟩, ⟨"Price", .numeric⟩, ⟨"X", .numeric⟩],
      [[none, some (.num 5), some (.num 1)],
       [none, some (.num 5), some (.num 1)],
       [none, some (.num 5), some (.num 2)],
       [none, some (.num 5), some (.num 3)],
       [none, some (.num 5), some (.num 4)]]⟩ : DF).hasConstCol = true := by
  refine ⟨by with_unfolding_all rfl, ?_, ?_, ?_⟩ <;> with_unfolding_all decide

/-- C1 amended: after a successful `clean_data` run on a dtype-consistent
table the output never has an `Id` column, and every column is either free
of missing values or entirely missing (an all-`NaN` numeric column survives
as-is, since `fillna` with a `NaN` median is a no-op); duplicate rows and
single-valued columns, however, can reappear, because deduplication, the
constant-column drop and the `Id` drop all run before imputation and
capping (see the counterexample). -/
theorem clean_missing_amended (df out : DF) (hty : df.typed)
    (h : clean_data df = .ok out) :
    hasCol out "Id" = false ∧
    ∀ k, k < out.header.length →
      (colCells out k).all (fun c => c.isSome) = true ∨
      (colCells out k).all (fun c => c.isNone) = true := by
  unfold clean_data at h
  cases hfill : cleanThroughFill df with
  | error e =>
    rw [hfill] at h
    cases h
  | ok d5 =>
    rw [hfill] at h
    dsimp only at h
    cases hcap : capStep d5 with
    | error e =>
      rw [hcap] at h
      cases h
    | ok d6 =>
      rw [hcap] at h
      dsimp only at h
      have hfill' : fillCatStep (fillNumericStep (dropIdCol (dropConstCols
          (dropDuplicates df)))) = .ok d5 := hfill
      have hty1 : (dropDuplicates df).typed := dropDuplicates_typed df hty
      have hty2 : (dropConstCols (dropDuplicates df)).typed := by
        unfold dropConstCols
        exact selectCols_typed _ _ (truePos_range_bounds _ _) hty1
      have hty3 : (dropIdCol (dropConstCols (dropDuplicates df))).typed := by
        unfold dropIdCol dropColsByName
        split_ifs
        · exact selectCols_typed _ _ (truePos_bounds _ _) hty2
        · exact hty2
      have hwf3 : (dropIdCol (dropConstCols (dropDuplicates df))).wf :=
        dropIdCol_wf _ (dropConstCols_wf _)
      rcases fill_cap_corr_missing _ d5 d6 out hty3 hwf3 hfill' hcap h with ⟨hid, hfe⟩
      exact ⟨hid (hasCol_dropIdCol _), hfe⟩

/-- C1 witness (for the amended theorem): a one-column table with one
missing value; the cleaned output has no `Id` column and its column is
entirely present. -/
theorem clean_missing_amended_witness :
    hasCol (⟨[⟨"A", .numeric⟩],
      [[some (.num (7 / 2))], [some (.num 3)], [some (.num 4)]]⟩ : DF) "Id" = false ∧
    ∀ k, k < (⟨[⟨"A", .numeric⟩],
      [[some (.num (7 / 2))], [some (.num 3)], [some (.num 4)]]⟩ : DF).header.length →
      (colCells ⟨[⟨"A", .numeric⟩],
        [[some (.num (7 / 2))], [some (.num 3)], [some (.num 4)]]⟩ k).all
          (fun c => c.isSome) = true ∨
      (colCells ⟨[⟨"A", .numeric⟩],
        [[some (.num (7 / 2))], [some (.num 3)], [some (.num 4)]]⟩ k).all
          (fun c => c.isNone) = true :=
  clean_missing_amended ⟨[⟨"A", .numeric⟩], [[none], [some (.num 3)], [some (.num 4)]]⟩
    _ (by decide) (by with_unfolding_all rfl)

/-! ### C3: idempotence of clean_data -/

theorem cellAt_mem (r : Row) (k : ℕ) (hk : k < r.length) : cellAt r k ∈ r := by
  unfold cellAt
  rw [List.get?_eq_get hk]
  exact List.get_mem r k hk

theorem hasMissing_false_cells (df : DF) (hmiss : df.hasMissing = false) :
    ∀ r ∈ df.rows, ∀ c ∈ r, c.isSome = true := by
  intro r hr c hc
  cases c with
  | some v => rfl
  | none =>
    exfalso
    have h1 : df.rows.any (fun r => r.any (fun c => c.isNone)) = true :=
      List.any_eq_true.2 ⟨r, hr, List.any_eq_true.2 ⟨none, hc, rfl⟩⟩
    unfold DF.hasMissing at hmiss
    rw [h1] at hmiss
    cases hmiss

theorem applyFns_id_of_some (fs : List (Cell → Cell))
    (hfs : ∀ f ∈ fs, ∀ v, f (some v) = some v) :
    ∀ r : Row, (∀ c ∈ r, c.isSome = true) → applyFns fs r = r := by
  induction fs with
  | nil =>
    intro r _
    rfl
  | cons f fs ih =>
    intro r hr
    cases r with
    | nil => rfl
    | cons c cs =>
      show f c :: applyFns fs cs = c :: cs
      have hc := hr c (List.mem_cons_self c cs)
      cases c with
      | none => cases hc
      | some v =>
        rw [hfs f (List.mem_cons_self f fs) v,
          ih (fun g hg => hfs g (List.mem_cons_of_mem f hg)) cs
            (fun c0 hc0 => hr c0 (List.mem_cons_of_mem _ hc0))]

theorem fillNumericStep_id (df : DF) (hmiss : df.hasMissing = false) :
    fillNumericStep df = df := by
  unfold fillNumericStep
  dsimp only
  have hfs : ∀ f ∈ (List.range df.header.length).map (fun k =>
      if (hdrAt df k).dtype = .numeric then fillCellNum (median? (colCells df k)) else id),
      ∀ v, f (some v) = some v := by
    intro f hf v
    rcases List.mem_map.1 hf with ⟨k, _, rfl⟩
    split_ifs
    · rfl
    · rfl
  have hcells := hasMissing_false_cells df hmiss
  have hrows : df.rows.map (applyFns ((List.range df.header.length).map (fun k =>
      if (hdrAt df k).dtype = .numeric then fillCellNum (median? (colCells df k)) else id))) =
      df.rows := by
    conv_rhs => rw [← List.map_id df.rows]
    refine List.map_congr_left ?_
    intro r hr
    exact (applyFns_id_of_some _ hfs r (hcells r hr)).trans rfl
  rw [hrows]

theorem fillCatStep_id (df : DF) (hwf : df.wf) (hnz : df.rows ≠ [])
    (hmiss : df.hasMissing = false) :
    fillCatStep df = .ok df := by
  have hcells := hasMissing_false_cells df hmiss
  unfold fillCatStep
  split_ifs with hg
  · dsimp only
    have hfs : ∀ f ∈ (List.range df.header.length).map (fun k =>
        if (hdrAt df k).dtype = .object then fillCellStr (modeStr? (colCells df k)) else id),
        ∀ v, f (some v) = some v := by
      intro f hf v
      rcases List.mem_map.1 hf with ⟨k, _, rfl⟩
      split_ifs
      · rfl
      · rfl
    have hrows : df.rows.map (applyFns ((List.range df.header.length).map (fun k =>
        if (hdrAt df k).dtype = .object then fillCellStr (modeStr? (colCells df k)) else id))) =
        df.rows := by
      conv_rhs => rw [← List.map_id df.rows]
      refine List.map_congr_left ?_
      intro r hr
      exact (applyFns_id_of_some _ hfs r (hcells r hr)).trans rfl
    rw [hrows]
  · exfalso
    apply hg
    rw [List.all_eq_true]
    intro k hk
    have hklen : k < df.header.length := List.mem_range.1 hk
    rw [decide_eq_true_eq]
    intro _
    rcases List.exists_cons_of_ne_nil hnz with ⟨r0, rest, hre⟩
    have hr0mem : r0 ∈ df.rows := by
      rw [hre]
      exact List.mem_cons_self _ _
    have hk0 : k < r0.length := by
      rw [hwf r0 hr0mem]
      exact hklen
    have hsome := hcells r0 hr0mem (cellAt r0 k) (cellAt_mem r0 k hk0)
    cases hc0 : cellAt r0 k with
    | none =>
      rw [hc0] at hsome
      cases hsome
    | some v =>
      have hne : presentVals (colCells df k) ≠ [] := by
        unfold colCells presentVals
        rw [hre, List.map_cons, hc0, List.filterMap_cons]
        simp
      cases hpe : (presentVals (colCells df k)).isEmpty with
      | false => rfl
      | true => exact absurd (List.isEmpty_iff.1 hpe) hne

theorem set_cellAt_self (r : Row) (k : ℕ) (hk : k < r.length) :
    r.set k (cellAt r k) = r := by
  apply List.ext
  intro n
  by_cases hn : k = n
  · subst hn
    rw [List.get?_set_eq_of_lt _ hk]
    unfold cellAt
    cases hr : r.get? k with
    | none => exact absurd (List.get?_eq_none.1 hr) (not_le.2 hk)
    | some c => rfl
  · rw [List.get?_set_ne _ _ hn]

theorem capCol_id (df : DF) (nm : String) (hwf : df.wf)
    (hok : ∀ k, k < df.header.length → (hdrAt df k).name = nm →
      (hdrAt df k).dtype = .numeric ∧ withinFencesB df k = true) :
    capCol df nm = .ok df := by
  unfold capCol
  cases hidx : colIdx df nm with
  | none => rfl
  | some k =>
    have hk : k < df.header.length := colIdx_lt df nm k hidx
    have hname : (hdrAt df k).name = nm := colIdx_name df nm k hidx
    rcases hok k hk hname with ⟨hdt, hfen⟩
    dsimp only
    rw [if_neg (by intro hco; rw [hdt] at hco; cases hco)]
    cases hq1 : quantile? (colCells df k) (1 / 4) with
    | none => cases hq3 : quantile? (colCells df k) (3 / 4) <;> rfl
    | some q1 =>
      cases hq3 : quantile? (colCells df k) (3 / 4) with
      | none => rfl
      | some q3 =>
        dsimp only
        have hbnd := withinFencesB_bounds df k q1 q3 hq1 hq3 hfen
        have hrows : df.rows.map (fun r => r.set k (clampCell (q1 - 3 / 2 * (q3 - q1))
            (q3 + 3 / 2 * (q3 - q1)) (cellAt r k))) = df.rows := by
          conv_rhs => rw [← List.map_id df.rows]
          refine List.map_congr_left ?_
          intro r hr
          have hkr : k < r.length := by
            rw [hwf r hr]
            exact hk
          have hcl : clampCell (q1 - 3 / 2 * (q3 - q1)) (q3 + 3 / 2 * (q3 - q1))
              (cellAt r k) = cellAt r k := by
            cases hc : cellAt r k with
            | none => rfl
            | some v =>
              cases v with
              | str s => rfl
              | num q =>
                have hqmem : q ∈ presentNums (colCells df k) := by
                  unfold presentNums
                  refine List.mem_filterMap.2 ⟨some (.num q), ?_, rfl⟩
                  rw [← hc]
                  exact List.mem_map.2 ⟨r, hr, rfl⟩
                rcases hbnd q hqmem with ⟨hb1, hb2⟩
                unfold clampCell
                dsimp only
                rw [if_neg (not_lt.2 hb1), if_neg (not_lt.2 hb2)]
          rw [hcl]
          exact (set_cellAt_self r k hkr).trans rfl
        show Except.ok (mapColAt df k _) = Except.ok df
        unfold mapColAt
        rw [hrows]

theorem capStep_id (df : DF) (hwf : df.wf)
    (hok : ∀ k, k < df.header.length → (hdrAt df k).name ∈ capTargets →
      (hdrAt df k).dtype = .numeric ∧ withinFencesB df k = true) :
    capStep df = .ok df := by
  have hone : ∀ nm, nm ∈ capTargets → capCol df nm = .ok df := by
    intro nm hnm
    refine capCol_id df nm hwf ?_
    intro k hk hname
    refine hok k hk ?_
    rw [hname]
    exact hnm
  unfold capStep
  rw [hone "Price" (by simp [capTargets])]
  dsimp only
  rw [hone "Price M2" (by simp [capTargets])]
  dsimp only
  rw [hone "AreaNet" (by simp [capTargets])]
  dsimp only
  exact hone "AreaGross" (by simp [capTargets])

theorem corrDropStep_id (df : DF)
    (hdt : ∀ k, colIdx df "Price M2" = some k ∨ colIdx df "Price" = some k →
      (hdrAt df k).dtype ≠ .object)
    (hndrop : ¬ dropsPriceM2 df) :
    corrDropStep df = .ok df := by
  rcases corrDropStep_ok_exists df hdt with ⟨o, ho⟩
  rcases corrDropStep_ok_cases df o ho with ⟨hdrop, _⟩ | ⟨_, rfl⟩
  · exact absurd hdrop hndrop
  · exact ho

theorem truePos_all_true (n : ℕ) (p : ℕ → Bool) (hp : ∀ k, k < n → p k = true) :
    truePos ((List.range n).map p) = List.range n := by
  unfold truePos
  rw [List.length_map, List.length_range]
  refine List.filter_eq_self.2 ?_
  intro i hi
  have hin : i < n := List.mem_range.1 hi
  show ((List.range n).map p).getD i false = true
  rw [List.getD_eq_get?, List.get?_map, List.get?_range hin]
  exact hp i hin

theorem selectCols_range_id (df : DF) (hwf : df.wf) :
    selectCols df (List.range df.header.length) = df := by
  unfold selectCols
  rw [selD_range]
  have hrows : df.rows.map (selD none (List.range df.header.length)) = df.rows := by
    conv_rhs => rw [← List.map_id df.rows]
    refine List.map_congr_left ?_
    intro r hr
    have : selD none (List.range r.length) r = r := selD_range none r
    rw [← hwf r hr]
    exact this.trans rfl
  rw [hrows]

theorem dropConstCols_id (df : DF) (hwf : df.wf)
    (hconst : ∀ k, k < df.header.length → nuniqueAt df k ≠ 1) :
    dropConstCols df = df := by
  unfold dropConstCols
  rw [truePos_all_true df.header.length _ (fun k hk => decide_eq_true (hconst k hk))]
  exact selectCols_range_id df hwf

theorem dropDuplicates_id (df : DF) (hnodup : df.rows.Nodup) :
    dropDuplicates df = df := by
  unfold dropDuplicates
  rw [dedupFirstAux_eq_self df.rows [] hnodup (fun a _ => List.not_mem_nil a)]

theorem dropIdCol_id (df : DF) (hnoid : hasCol df "Id" = false) :
    dropIdCol df = df := by
  simp [dropIdCol, hnoid]

/-- C3 counterexample: `clean_data` is not idempotent.  On this table the
first run caps the `Price` outlier 9 down to 5, which creates a duplicate
row and makes `Price` single-valued; the second run then removes the
duplicate row and drops the now-constant `Price` column, returning a
different table. -/
theorem clean_idempotent_counterexample :
    clean_data ⟨[⟨"Price", .numeric⟩, ⟨"X", .numeric⟩],
      [[some (.num 5), some (.num 1)],
       [some (.num 9), some (.num 1)],
       [some (.num 5), some (.num 2)],
       [some (.num 5), some (.num 3)],
       [some (.num 5), some (.num 4)]]⟩ =
      .ok ⟨[⟨"Price", .numeric⟩, ⟨"X", .numeric⟩],
      [[some (.num 5), some (.num 1)],
       [some (.num 5), some (.num 1)],
       [some (.num 5), some (.num 2)],
       [some (.num 5), some (.num 3)],
       [some (.num 5), some (.num 4)]]⟩ ∧
    clean_data ⟨[⟨"Price", .numeric⟩, ⟨"X", .numeric⟩],
      [[some (.num 5), some (.num 1)],
       [some (.num 5), some (.num 1)],
       [some (.num 5), some (.num 2)],
       [some (.num 5), some (.num 3)],
       [some (.num 5), some (.num 4)]]⟩ =
      .ok ⟨[⟨"X", .numeric⟩],
      [[some (.num 1)], [some (.num 2)], [some (.num 3)], [some (.num 4)]]⟩ ∧
    (⟨[⟨"Price", .numeric⟩, ⟨"X", .numeric⟩],
      [[some (.num 5), some (.num 1)],
       [some (.num 5), some (.num 1)],
       [some (.num 5), some (.num 2)],
       [some (.num 5), some (.num 3)],
       [some (.num 5), some (.num 4)]]⟩ : DF) ≠
      ⟨[⟨"X", .numeric⟩],
      [[some (.num 1)], [some (.num 2)], [some (.num 3)], [some (.num 4)]]⟩ :=
  ⟨by with_unfolding_all rfl, by with_unfolding_all rfl, by with_unfolding_all decide⟩

/-- C3 amended: `clean_data` is the identity on a table that is already
fully clean — well-formed, nonempty, without duplicate rows, single-valued columns, an `Id` column or
missing values, with every present cap-target column numeric and inside its
own IQR fences, and with the `Price M2` drop condition not holding.  On
general inputs a second run can change the table further, because capping
can create duplicate rows and constant columns (see the counterexample). -/
theorem clean_fixpoint_amended (df : DF) (hwf : df.wf)
    (hnz : df.rows ≠ []) (hnodup : df.rows.Nodup)
    (hconst : ∀ k, k < df.header.length → nuniqueAt df k ≠ 1)
    (hnoid : hasCol df "Id" = false)
    (hmiss : df.hasMissing = false)
    (hcap : ∀ k, k < df.header.length → (hdrAt df k).name ∈ capTargets →
      (hdrAt df k).dtype = .numeric ∧ withinFencesB df k = true)
    (hcorr : ¬ dropsPriceM2 df) :
    clean_data df = .ok df := by
  have h1 : dropDuplicates df = df := dropDuplicates_id df hnodup
  have h2 : dropConstCols df = df := dropConstCols_id df hwf hconst
  have h3 : dropIdCol df = df := dropIdCol_id df hnoid
  have h4 : fillNumericStep df = df := fillNumericStep_id df hmiss
  have h5 : fillCatStep df = .ok df := fillCatStep_id df hwf hnz hmiss
  have h6 : capStep df = .ok df := capStep_id df hwf hcap
  have hdt' : ∀ k, colIdx df "Price M2" = some k ∨ colIdx df "Price" = some k →
      (hdrAt df k).dtype ≠ .object := by
    intro k hk
    have hlt : k < df.header.length := by
      rcases hk with hk | hk
      · exact colIdx_lt df _ k hk
      · exact colIdx_lt df _ k hk
    have hmem : (hdrAt df k).name ∈ capTargets := by
      rcases hk with hk | hk
      · rw [colIdx_name df _ k hk]
        simp [capTargets]
      · rw [colIdx_name df _ k hk]
        simp [capTargets]
    rcases hcap k hlt hmem with ⟨hdt, _⟩
    rw [hdt]
    intro hco
    cases hco
  have h7 : corrDropStep df = .ok df := corrDropStep_id df hdt' hcorr
  have hct : cleanThroughFill df = .ok df := by
    unfold cleanThroughFill
    rw [h1, h2, h3, h4]
    exact h5
  unfold clean_data
  rw [hct]
  dsimp only
  rw [h6]
  dsimp only
  exact h7

/-- C3 witness (for the amended theorem): a fully clean one-column table is
returned unchanged. -/
theorem clean_fixpoint_amended_witness :
    clean_data ⟨[⟨"Y", .numeric⟩],
      [[some (.num 0)], [some (.num 1)], [some (.num 2)], [some (.num 3)]]⟩ =
      .ok ⟨[⟨"Y", .numeric⟩],
      [[some (.num 0)], [some (.num 1)], [some (.num 2)], [some (.num 3)]]⟩ :=
  clean_fixpoint_amended
    ⟨[⟨"Y", .numeric⟩], [[some (.num 0)], [some (.num 1)], [some (.num 2)], [some (.num 3)]]⟩
    (by decide) (by decide) (by with_unfolding_all decide)
    (by
      intro k hk
      rw [Nat.lt_one_iff.1 hk]
      with_unfolding_all decide)
    (by with_unfolding_all decide) (by with_unfolding_all decide)
    (by
      intro k hk hname
      rw [Nat.lt_one_iff.1 hk] at hname
      exact absurd hname (by with_unfolding_all decide))
    (by with_unfolding_all decide)

/-! ### C5: engineered features — setCol and mapCellsM plumbing -/

theorem zip_get?_some {α β : Type _} (as : List α) (bs : List β) (i : ℕ) (a : α) (b : β)
    (ha : as.get? i = some a) (hb : bs.get? i = some b) :
    (as.zip bs).get? i = some (a, b) := by
  induction as generalizing bs i with
  | nil => cases ha
  | cons a0 as ih =>
    cases bs with
    | nil => cases hb
    | cons b0 bs =>
      cases i with
      | zero =>
        injection ha with ha
        injection hb with hb
        rw [ha, hb]
        rfl
      | succ j =>
        show (as.zip bs).get? j = some (a, b)
        exact ih bs j ha hb

theorem mapCellsM_ok_length (f : Row → Except String Cell) (rs : List Row)
    (cs : List Cell) (h : mapCellsM f rs = .ok cs) : cs.length = rs.length := by
  induction rs generalizing cs with
  | nil =>
    cases h
    rfl
  | cons r rs ih =>
    unfold mapCellsM at h
    split at h
    next e he => cases h
    next c hc =>
      split at h
      next e he => cases h
      next cs0 hcs0 =>
        cases h
        simp [ih cs0 hcs0]

theorem mapCellsM_ok_get (f : Row → Except String Cell) (rs : List Row)
    (cs : List Cell) (h : mapCellsM f rs = .ok cs) (i : ℕ) (r : Row)
    (hr : rs.get? i = some r) : ∃ c, cs.get? i = some c ∧ f r = .ok c := by
  induction rs generalizing cs i with
  | nil => cases hr
  | cons r0 rs ih =>
    unfold mapCellsM at h
    split at h
    next e he => cases h
    next c hc =>
      split at h
      next e he => cases h
      next cs0 hcs0 =>
        cases h
        cases i with
        | zero =>
          injection hr with hr
          subst hr
          exact ⟨c, rfl, hc⟩
        | succ j => exact ih cs0 hcs0 j hr

theorem colIdxAux_append_some (n : String) (hs ts : List Hdr) (k : ℕ)
    (h : colIdxAux n hs = some k) : colIdxAux n (hs ++ ts) = some k := by
  induction hs generalizing k with
  | nil => cases h
  | cons h0 hs ih =>
    by_cases hn : h0.name = n
    · rw [colIdxAux, if_pos hn] at h
      rw [List.cons_append, colIdxAux, if_pos hn]
      exact h
    · rw [colIdxAux, if_neg hn] at h
      rcases Option.map_eq_some'.1 h with ⟨j, hj, rfl⟩
      rw [List.cons_append, colIdxAux, if_neg hn, ih j hj]
      rfl

theorem colIdxAux_append_none (n : String) (hs ts : List Hdr)
    (h : colIdxAux n hs = none) :
    colIdxAux n (hs ++ ts) = (colIdxAux n ts).map (· + hs.length) := by
  induction hs with
  | nil =>
    show colIdxAux n ts = (colIdxAux n ts).map (· + 0)
    cases colIdxAux n ts <;> simp
  | cons h0 hs ih =>
    by_cases hn : h0.name = n
    · rw [colIdxAux, if_pos hn] at h
      cases h
    · rw [colIdxAux, if_neg hn] at h
      have h' : colIdxAux n hs = none := by
        cases hcc : colIdxAux n hs with
        | none => rfl
        | some j =>
          rw [hcc] at h
          cases h
      rw [List.cons_append, colIdxAux, if_neg hn, ih h']
      cases colIdxAux n ts with
      | none => rfl
      | some j => simp [Nat.add_assoc]

theorem colIdxAux_congr_names (hs ts : List Hdr)
    (h : hs.map Hdr.name = ts.map Hdr.name) (n : String) :
    colIdxAux n hs = colIdxAux n ts := by
  induction hs generalizing ts with
  | nil =>
    cases ts with
    | nil => rfl
    | cons t0 ts => cases h
  | cons h0 hs ih =>
    cases ts with
    | nil => cases h
    | cons t0 ts =>
      rw [List.map_cons, List.map_cons] at h
      injection h with h1 h2
      rw [colIdxAux, colIdxAux, h1, ih ts h2]

theorem names_set_eq (hs : List Hdr) (k : ℕ) (nm : String) (dt : DType)
    (hk : k < hs.length) (hname : (hs.getD k ⟨"", .numeric⟩).name = nm) :
    (hs.set k ⟨nm, dt⟩).map Hdr.name = hs.map Hdr.name := by
  induction hs generalizing k with
  | nil => cases hk
  | cons h0 hs ih =>
    cases k with
    | zero =>
      rw [List.getD_cons_zero] at hname
      rw [List.set_cons_zero, List.map_cons, List.map_cons, hname]
    | succ j =>
      rw [List.getD_cons_succ] at hname
      rw [List.set_cons_succ, List.map_cons, List.map_cons,
        ih j (Nat.lt_of_succ_lt_succ hk) hname]

theorem setCol_colIdx_replace (df : DF) (nm : String) (cells : List Cell) (k : ℕ)
    (hk : colIdx df nm = some k) (m : String) :
    colIdx (setCol df nm cells) m = colIdx df m := by
  unfold setCol
  rw [hk]
  show colIdxAux m (df.header.set k ⟨nm, dtypeOfCells cells⟩) = colIdxAux m df.header
  exact colIdxAux_congr_names _ _
    (names_set_eq df.header k nm _ (colIdx_lt df nm k hk) (colIdx_name df nm k hk)) m

theorem setCol_colIdx_append (df : DF) (nm : String) (cells : List Cell)
    (hnone : colIdx df nm = none) (m : String) :
    colIdx (setCol df nm cells) m =
      if m = nm then some df.header.length else colIdx df m := by
  unfold setCol
  rw [hnone]
  show colIdxAux m (df.header ++ [(⟨nm, dtypeOfCells cells⟩ : Hdr)]) = _
  cases hm : colIdxAux m df.header with
  | some j =>
    rw [colIdxAux_append_some m df.header _ j hm]
    split_ifs with he
    · exfalso
      subst he
      unfold colIdx at hnone
      rw [hnone] at hm
      cases hm
    · exact hm.symm
  | none =>
    rw [colIdxAux_append_none m df.header _ hm]
    by_cases he : m = nm
    · subst he
      rw [if_pos rfl, show colIdxAux m [⟨m, dtypeOfCells cells⟩] = some 0 from by
        rw [colIdxAux, if_pos rfl]]
      simp
    · rw [if_neg he, show colIdxAux m [(⟨nm, dtypeOfCells cells⟩ : Hdr)] = none from by
        rw [colIdxAux, if_neg (fun hco => he hco.symm)]
        rfl]
      exact hm.symm

theorem setCol_rows_get?_append (df : DF) (nm : String) (cells : List Cell)
    (hnone : colIdx df nm = none) (i : ℕ) (r : Row) (c : Cell)
    (hr : df.rows.get? i = some r) (hc : cells.get? i = some c) :
    (setCol df nm cells).rows.get? i = some (r ++ [c]) := by
  unfold setCol
  rw [hnone]
  show ((df.rows.zip cells).map (fun p => p.1 ++ [p.2])).get? i = _
  rw [List.get?_map, zip_get?_some df.rows cells i r c hr hc]
  rfl

theorem setCol_rows_get?_replace (df : DF) (nm : String) (cells : List Cell) (k : ℕ)
    (hk : colIdx df nm = some k) (i : ℕ) (r : Row) (c : Cell)
    (hr : df.rows.get? i = some r) (hc : cells.get? i = some c) :
    (setCol df nm cells).rows.get? i = some (r.set k c) := by
  unfold setCol
  rw [hk]
  show ((df.rows.zip cells).map (fun p => p.1.set k p.2)).get? i = _
  rw [List.get?_map, zip_get?_some df.rows cells i r c hr hc]
  rfl

theorem setCol_cell_self (df : DF) (nm : String) (cells : List Cell) (hwf : df.wf)
    (hlen : cells.length = df.rows.length) (i : ℕ) (hi : i < df.rows.length) :
    DF.cell (setCol df nm cells) nm i = cells.getD i none := by
  have hi' : i < cells.length := by
    rw [hlen]
    exact hi
  have hr : df.rows.get? i = some (df.rows.get ⟨i, hi⟩) := List.get?_eq_get hi
  have hc : cells.get? i = some (cells.get ⟨i, hi'⟩) := List.get?_eq_get hi'
  have hrmem : df.rows.get ⟨i, hi⟩ ∈ df.rows := List.get_mem df.rows i hi
  cases hidx : colIdx df nm with
  | none =>
    unfold DF.cell
    rw [setCol_colIdx_append df nm cells hidx nm, if_pos rfl]
    dsimp only
    rw [List.getD_eq_get?, setCol_rows_get?_append df nm cells hidx i _ _ hr hc]
    show cellAt (df.rows.get ⟨i, hi⟩ ++ [cells.get ⟨i, hi'⟩]) df.header.length =
      cells.getD i none
    unfold cellAt
    rw [← hwf _ hrmem, List.get?_append_right (le_refl _), Nat.sub_self,
      List.getD_eq_get?, hc]
    rfl
  | some k =>
    unfold DF.cell
    rw [setCol_colIdx_replace df nm cells k hidx nm, hidx]
    dsimp only
    rw [List.getD_eq_get?, setCol_rows_get?_replace df nm cells k hidx i _ _ hr hc]
    have hkr : k < (df.rows.get ⟨i, hi⟩).length := by
      rw [hwf _ hrmem]
      exact colIdx_lt df nm k hidx
    show cellAt ((df.rows.get ⟨i, hi⟩).set k (cells.get ⟨i, hi'⟩)) k = cells.getD i none
    unfold cellAt
    rw [List.get?_set_eq_of_lt _ hkr, List.getD_eq_get?, hc]

theorem setCol_cell_other (df : DF) (nm : String) (cells : List Cell) (hwf : df.wf)
    (hlen : cells.length = df.rows.length) (m : String) (hm : m ≠ nm) (i : ℕ)
    (hi : i < df.rows.length) :
    DF.cell (setCol df nm cells) m i = df.cell m i := by
  have hi' : i < cells.length := by
    rw [hlen]
    exact hi
  have hr : df.rows.get? i = some (df.rows.get ⟨i, hi⟩) := List.get?_eq_get hi
  have hc : cells.get? i = some (cells.get ⟨i, hi'⟩) := List.get?_eq_get hi'
  have hrmem : df.rows.get ⟨i, hi⟩ ∈ df.rows := List.get_mem df.rows i hi
  cases hidx : colIdx df nm with
  | none =>
    unfold DF.cell
    rw [setCol_colIdx_append df nm cells hidx m, if_neg hm]
    cases hm2 : colIdx df m with
    | none => rfl
    | some j =>
      have hjr : j < (df.rows.get ⟨i, hi⟩).length := by
        rw [hwf _ hrmem]
        exact colIdx_lt df m j hm2
      dsimp only
      rw [List.getD_eq_get?, setCol_rows_get?_append df nm cells hidx i _ _ hr hc,
        List.getD_eq_get?, hr]
      show cellAt (df.rows.get ⟨i, hi⟩ ++ [cells.get ⟨i, hi'⟩]) j =
        cellAt (df.rows.get ⟨i, hi⟩) j
      unfold cellAt
      rw [List.get?_append hjr]
  | some k =>
    unfold DF.cell
    rw [setCol_colIdx_replace df nm cells k hidx m]
    cases hm2 : colIdx df m with
    | none => rfl
    | some j =>
      have hjk : k ≠ j := by
        intro he
        subst he
        have h1 := colIdx_name df m k hm2
        have h2 := colIdx_name df nm k hidx
        rw [h1] at h2
        exact hm h2
      dsimp only
      rw [List.getD_eq_get?, setCol_rows_get?_replace df nm cells k hidx i _ _ hr hc,
        List.getD_eq_get?, hr]
      show cellAt ((df.rows.get ⟨i, hi⟩).set k (cells.get ⟨i, hi'⟩)) j =
        cellAt (df.rows.get ⟨i, hi⟩) j
      unfold cellAt
      rw [List.get?_set_ne _ _ hjk]

theorem setCol_hasCol (df : DF) (nm : String) (cells : List Cell) (m : String) :
    hasCol (setCol df nm cells) m = (hasCol df m || (m == nm)) := by
  cases hidx : colIdx df nm with
  | none =>
    unfold hasCol
    rw [setCol_colIdx_append df nm cells hidx m]
    by_cases he : m = nm
    · rw [if_pos he]
      simp [he]
    · rw [if_neg he]
      simp [he]
  | some k =>
    unfold hasCol
    rw [setCol_colIdx_replace df nm cells k hidx m]
    by_cases he : m = nm
    · subst he
      rw [hidx]
      simp
    · simp [he]

theorem setCol_nrows (df : DF) (nm : String) (cells : List Cell)
    (hlen : cells.length = df.rows.length) :
    (setCol df nm cells).rows.length = df.rows.length := by
  unfold setCol
  cases colIdx df nm with
  | none =>
    show ((df.rows.zip cells).map _).length = _
    rw [List.length_map, List.length_zip, hlen, min_self]
  | some k =>
    show ((df.rows.zip cells).map _).length = _
    rw [List.length_map, List.length_zip, hlen, min_self]

theorem setCol_wf (df : DF) (nm : String) (cells : List Cell) (hwf : df.wf) :
    (setCol df nm cells).wf := by
  unfold setCol
  cases hidx : colIdx df nm with
  | none =>
    show ∀ r ∈ (df.rows.zip cells).map (fun p => p.1 ++ [p.2]),
      r.length = (df.header ++ [(⟨nm, dtypeOfCells cells⟩ : Hdr)]).length
    intro r hr
    rcases List.mem_map.1 hr with ⟨p, hp, rfl⟩
    obtain ⟨a, b⟩ := p
    have ha : a ∈ df.rows := (List.of_mem_zip hp).1
    show (a ++ [b]).length = (df.header ++ [(⟨nm, dtypeOfCells cells⟩ : Hdr)]).length
    rw [List.length_append, List.length_append, hwf a ha]
    rfl
  | some k =>
    show ∀ r ∈ (df.rows.zip cells).map (fun p => p.1.set k p.2),
      r.length = (df.header.set k ⟨nm, dtypeOfCells cells⟩).length
    intro r hr
    rcases List.mem_map.1 hr with ⟨p, hp, rfl⟩
    obtain ⟨a, b⟩ := p
    have ha : a ∈ df.rows := (List.of_mem_zip hp).1
    show (a.set k b).length = (df.header.set k ⟨nm, dtypeOfCells cells⟩).length
    rw [List.length_set, List.length_set, hwf a ha]

theorem setCol_nodupNames (df : DF) (nm : String) (cells : List Cell)
    (hnd : df.nodupNames) : (setCol df nm cells).nodupNames := by
  unfold setCol
  cases hidx : colIdx df nm with
  | some k =>
    show ((df.header.set k ⟨nm, dtypeOfCells cells⟩).map Hdr.name).Nodup
    rw [names_set_eq df.header k nm _ (colIdx_lt df nm k hidx) (colIdx_name df nm k hidx)]
    exact hnd
  | none =>
    show ((df.header ++ [(⟨nm, dtypeOfCells cells⟩ : Hdr)]).map Hdr.name).Nodup
    rw [List.map_append]
    refine List.Nodup.append hnd (List.nodup_singleton _) ?_
    intro a ha hb
    rcases List.mem_map.1 ha with ⟨h0, h0mem, rfl⟩
    simp only [List.map_cons, List.map_nil, List.mem_singleton] at hb
    have hcol : hasCol df nm = true := (hasCol_iff df nm).2 ⟨h0, h0mem, hb⟩
    unfold hasCol at hcol
    rw [hidx] at hcol
    cases hcol

/-! ### C5: the four guarded derived features -/

theorem deriveRatio_parts (df out : DF) (new num den : String)
    (h : deriveRatio df new num den = .ok out) :
    (out = df ∧ (colIdx df num = none ∨ colIdx df den = none)) ∨
    (∃ kn kd cells, colIdx df num = some kn ∧ colIdx df den = some kd ∧
      mapCellsM (fun r => ratioCell (cellAt r kn) (cellAt r kd)) df.rows = .ok cells ∧
      out = setCol df new cells) := by
  unfold deriveRatio at h
  split at h
  next kn kd hkn hkd =>
    split at h
    next e he => cases h
    next cells hcells =>
      cases h
      exact Or.inr ⟨kn, kd, cells, hkn, hkd, hcells, rfl⟩
  next hno =>
    cases h
    refine Or.inl ⟨rfl, ?_⟩
    cases hkn : colIdx df num with
    | none => exact Or.inl rfl
    | some kn =>
      cases hkd : colIdx df den with
      | none => exact Or.inr rfl
      | some kd => exact (hno kn kd hkn hkd).elim

theorem deriveArea_parts (df out : DF) (h : deriveArea df = .ok out) :
    (out = df ∧ (colIdx df "AreaNet" = none ∨ colIdx df "AreaGross" = none)) ∨
    (∃ kn kg cells, colIdx df "AreaNet" = some kn ∧ colIdx df "AreaGross" = some kg ∧
      mapCellsM (fun r => areaRatioCell (cellAt r kn) (cellAt r kg)) df.rows = .ok cells ∧
      out = setCol df "AreaUtilizationRatio" cells) := by
  unfold deriveArea at h
  split at h
  next kn kg hkn hkg =>
    split at h
    next e he => cases h
    next cells hcells =>
      cases h
      exact Or.inr ⟨kn, kg, cells, hkn, hkg, hcells, rfl⟩
  next hno =>
    cases h
    refine Or.inl ⟨rfl, ?_⟩
    cases hkn : colIdx df "AreaNet" with
    | none => exact Or.inl rfl
    | some kn =>
      cases hkg : colIdx df "AreaGross" with
      | none => exact Or.inr rfl
      | some kg => exact (hno kn kg hkn hkg).elim

theorem deriveConcat_parts (df out : DF) (h : deriveConcat df = .ok out) :
    out = df ∨
    (∃ cells, mapCellsM (fun r => concatCell (cellAt r (Option.getD
        (colIdx df "PropertyType") 0)) (cellAt r (Option.getD
        (colIdx df "PropertySubType") 0))) df.rows = .ok cells ∧
      out = setCol df "PropertyCategory" cells) := by
  unfold deriveConcat at h
  split at h
  next ka kb hka hkb =>
    split at h
    next hdt => cases h
    next hdt =>
      split at h
      next e he => cases h
      next cells hcells =>
        cases h
        refine Or.inr ⟨cells, ?_, rfl⟩
        rw [hka, hkb]
        exact hcells
  next hno =>
    cases h
    exact Or.inl rfl

theorem deriveRatio_preserves (df out : DF) (new num den : String) (hwf : df.wf)
    (hnd : df.nodupNames) (h : deriveRatio df new num den = .ok out) :
    out.rows.length = df.rows.length ∧ out.wf ∧ out.nodupNames ∧
    (∀ m, m ≠ new → ∀ i, i < df.rows.length → out.cell m i = df.cell m i) ∧
    (∀ m, m ≠ new → hasCol out m = hasCol df m) := by
  rcases deriveRatio_parts df out new num den h with ⟨rfl, _⟩ |
    ⟨kn, kd, cells, _, _, hcells, rfl⟩
  · exact ⟨rfl, hwf, hnd, fun m _ i _ => rfl, fun m _ => rfl⟩
  · have hlen := mapCellsM_ok_length _ _ _ hcells
    refine ⟨setCol_nrows df new cells hlen, setCol_wf df new cells hwf,
      setCol_nodupNames df new cells hnd,
      fun m hm i hi => setCol_cell_other df new cells hwf hlen m hm i hi,
      fun m hm => ?_⟩
    rw [setCol_hasCol df new cells m]
    have : (m == new) = false := by
      simp [hm]
    rw [this, Bool.or_false]

theorem deriveArea_preserves (df out : DF) (hwf : df.wf)
    (hnd : df.nodupNames) (h : deriveArea df = .ok out) :
    out.rows.length = df.rows.length ∧ out.wf ∧ out.nodupNames ∧
    (∀ m, m ≠ "AreaUtilizationRatio" → ∀ i, i < df.rows.length →
      out.cell m i = df.cell m i) ∧
    (∀ m, m ≠ "AreaUtilizationRatio" → hasCol out m = hasCol df m) := by
  rcases deriveArea_parts df out h with ⟨rfl, _⟩ | ⟨kn, kg, cells, _, _, hcells, rfl⟩
  · exact ⟨rfl, hwf, hnd, fun m _ i _ => rfl, fun m _ => rfl⟩
  · have hlen := mapCellsM_ok_length _ _ _ hcells
    refine ⟨setCol_nrows df _ cells hlen, setCol_wf df _ cells hwf,
      setCol_nodupNames df _ cells hnd,
      fun m hm i hi => setCol_cell_other df _ cells hwf hlen m hm i hi,
      fun m hm => ?_⟩
    rw [setCol_hasCol df _ cells m]
    have : (m == "AreaUtilizationRatio") = false := by
      simp [hm]
    rw [this, Bool.or_false]

theorem deriveConcat_preserves (df out : DF) (hwf : df.wf)
    (h : deriveConcat df = .ok out) :
    (∀ m, m ≠ "PropertyCategory" → ∀ i, i < df.rows.length →
      out.cell m i = df.cell m i) := by
  rcases deriveConcat_parts df out h with rfl | ⟨cells, hcells, rfl⟩
  · exact fun m _ i _ => rfl
  · have hlen := mapCellsM_ok_length _ _ _ hcells
    exact fun m hm i hi => setCol_cell_other df _ cells hwf hlen m hm i hi

theorem deriveRatio_cellrel (df out : DF) (new num den : String) (hwf : df.wf)
    (kn kd : ℕ) (hkn : colIdx df num = some kn) (hkd : colIdx df den = some kd)
    (h : deriveRatio df new num den = .ok out) (i : ℕ) (hi : i < df.rows.length) :
    ratioCell (df.cell num i) (df.cell den i) = .ok (out.cell new i) := by
  rcases deriveRatio_parts df out new num den h with ⟨_, hcase⟩ |
    ⟨kn', kd', cells, hkn', hkd', hcells, rfl⟩
  · rcases hcase with hc | hc
    · rw [hkn] at hc
      cases hc
    · rw [hkd] at hc
      cases hc
  · rw [hkn] at hkn'
    injection hkn' with he1
    subst he1
    rw [hkd] at hkd'
    injection hkd' with he2
    subst he2
    have hr : df.rows.get? i = some (df.rows.get ⟨i, hi⟩) := List.get?_eq_get hi
    obtain ⟨c, hcget, hfc⟩ := mapCellsM_ok_get _ _ _ hcells i _ hr
    have hcellnum : df.cell num i = cellAt (df.rows.get ⟨i, hi⟩) kn := by
      unfold DF.cell
      rw [hkn]
      dsimp only
      rw [List.getD_eq_get?, hr]
      rfl
    have hcellden : df.cell den i = cellAt (df.rows.get ⟨i, hi⟩) kd := by
      unfold DF.cell
      rw [hkd]
      dsimp only
      rw [List.getD_eq_get?, hr]
      rfl
    have hout : (setCol df new cells).cell new i = c := by
      rw [setCol_cell_self df new cells hwf (mapCellsM_ok_length _ _ _ hcells) i hi,
        List.getD_eq_get?, hcget]
      rfl
    rw [hcellnum, hcellden, hout]
    exact hfc

theorem deriveArea_cellrel (df out : DF) (hwf : df.wf)
    (kn kg : ℕ) (hkn : colIdx df "AreaNet" = some kn)
    (hkg : colIdx df "AreaGross" = some kg)
    (h : deriveArea df = .ok out) (i : ℕ) (hi : i < df.rows.length) :
    areaRatioCell (df.cell "AreaNet" i) (df.cell "AreaGross" i) =
      .ok (out.cell "AreaUtilizationRatio" i) := by
  rcases deriveArea_parts df out h with ⟨_, hcase⟩ |
    ⟨kn', kg', cells, hkn', hkg', hcells, rfl⟩
  · rcases hcase with hc | hc
    · rw [hkn] at hc
      cases hc
    · rw [hkg] at hc
      cases hc
  · rw [hkn] at hkn'
    injection hkn' with he1
    subst he1
    rw [hkg] at hkg'
    injection hkg' with he2
    subst he2
    have hr : df.rows.get? i = some (df.rows.get ⟨i, hi⟩) := List.get?_eq_get hi
    obtain ⟨c, hcget, hfc⟩ := mapCellsM_ok_get _ _ _ hcells i _ hr
    have hcellnet : df.cell "AreaNet" i = cellAt (df.rows.get ⟨i, hi⟩) kn := by
      unfold DF.cell
      rw [hkn]
      dsimp only
      rw [List.getD_eq_get?, hr]
      rfl
    have hcellgross : df.cell "AreaGross" i = cellAt (df.rows.get ⟨i, hi⟩) kg := by
      unfold DF.cell
      rw [hkg]
      dsimp only
      rw [List.getD_eq_get?, hr]
      rfl
    have hout : (setCol df "AreaUtilizationRatio" cells).cell "AreaUtilizationRatio" i
        = c := by
      rw [setCol_cell_self df _ cells hwf (mapCellsM_ok_length _ _ _ hcells) i hi,
        List.getD_eq_get?, hcget]
      rfl
    rw [hcellnet, hcellgross, hout]
    exact hfc

theorem deriveRatio_skip (df : DF) (new num den : String)
    (habs : hasCol df num = false ∨ hasCol df den = false) :
    deriveRatio df new num den = .ok df := by
  unfold deriveRatio
  cases hkn : colIdx df num with
  | none =>
    cases hkd : colIdx df den with
    | none => rfl
    | some kd => rfl
  | some kn =>
    cases hkd : colIdx df den with
    | none => rfl
    | some kd =>
      exfalso
      rcases habs with hab | hab
      · unfold hasCol at hab
        rw [hkn] at hab
        cases hab
      · unfold hasCol at hab
        rw [hkd] at hab
        cases hab

theorem deriveArea_skip (df : DF)
    (habs : hasCol df "AreaNet" = false ∨ hasCol df "AreaGross" = false) :
    deriveArea df = .ok df := by
  unfold deriveArea
  cases hkn : colIdx df "AreaNet" with
  | none =>
    cases hkd : colIdx df "AreaGross" with
    | none => rfl
    | some kg => rfl
  | some kn =>
    cases hkd : colIdx df "AreaGross" with
    | none => rfl
    | some kg =>
      exfalso
      rcases habs with hab | hab
      · unfold hasCol at hab
        rw [hkn] at hab
        cases hab
      · unfold hasCol at hab
        rw [hkd] at hab
        cases hab

theorem deriveConcat_skip (df : DF)
    (habs : hasCol df "PropertyType" = false ∨ hasCol df "PropertySubType" = false) :
    deriveConcat df = .ok df := by
  unfold deriveConcat
  cases hka : colIdx df "PropertyType" with
  | none =>
    cases hkb : colIdx df "PropertySubType" with
    | none => rfl
    | some kb => rfl
  | some ka =>
    cases hkb : colIdx df "PropertySubType" with
    | none => rfl
    | some kb =>
      exfalso
      rcases habs with hab | hab
      · unfold hasCol at hab
        rw [hka] at hab
        cases hab
      · unfold hasCol at hab
        rw [hkb] at hab
        cases hab

theorem engineer_parts (df out : DF) (h : engineer_features df = .ok out) :
    ∃ d1 d2 d3, deriveRatio df "PricePerBedroom" "Price" "Bedrooms" = .ok d1 ∧
      deriveRatio d1 "BathroomToBedroom" "Bathrooms" "Bedrooms" = .ok d2 ∧
      deriveArea d2 = .ok d3 ∧ deriveConcat d3 = .ok out := by
  unfold engineer_features at h
  split at h
  next e h1 => cases h
  next d1 h1 =>
    split at h
    next e h2 => cases h
    next d2 h2 =>
      split at h
      next e h3 => cases h
      next d3 h3 => exact ⟨d1, d2, d3, h1, h2, h3, h⟩

/-- C5 counterexample: the `AreaUtilizationRatio` fallback fires on any
non-positive `AreaGross`, not only on zero.  With `AreaNet = 4` and
`AreaGross = -2` the derived cell is 0, not `AreaNet / AreaGross = -2`. -/
theorem engineer_area_counterexample :
    engineer_features ⟨[⟨"AreaNet", .numeric⟩, ⟨"AreaGross", .numeric⟩],
      [[some (.num 4), some (.num (-2))]]⟩ =
      .ok ⟨[⟨"AreaNet", .numeric⟩, ⟨"AreaGross", .numeric⟩,
            ⟨"AreaUtilizationRatio", .numeric⟩],
      [[some (.num 4), some (.num (-2)), some (.num 0)]]⟩ ∧
    DF.cell ⟨[⟨"AreaNet", .numeric⟩, ⟨"AreaGross", .numeric⟩],
      [[some (.num 4), some (.num (-2))]]⟩ "AreaGross" 0 = some (.num (-2)) ∧
    ¬ ((4 : ℚ) / (-2) = 0) :=
  ⟨by with_unfolding_all rfl, by with_unfolding_all rfl, by with_unfolding_all decide⟩

/-- C5 amended: in the table returned by `engineer_features` (on a
well-formed table with distinct column names), when `Price` and `Bedrooms`
are both present, each row with `Bedrooms = 0` gets `PricePerBedroom` equal
to its `Price` cell and each row with `Bedrooms = b > 0` and a present
`Price = p` gets `p / b`; when `AreaNet` and `AreaGross` are both present,
each row with `AreaGross = g > 0` and present `AreaNet = a` gets
`AreaUtilizationRatio = a / g`, and each row with `AreaGross` non-positive
or missing gets the literal 0 (the source tests `row['AreaGross'] > 0`, so
the zero fallback also fires on negative or missing values, not only on
zero); each of the four derived columns is skipped without error when a
required source column is absent. -/
theorem engineer_spec (df out : DF) (hwf : df.wf) (hnd : df.nodupNames)
    (h : engineer_features df = .ok out) :
    (hasCol df "Price" = true → hasCol df "Bedrooms" = true →
      ∀ i, i < df.rows.length →
        (df.cell "Bedrooms" i = some (.num 0) →
          out.cell "PricePerBedroom" i = df.cell "Price" i) ∧
        (∀ b p, df.cell "Bedrooms" i = some (.num b) → 0 < b →
          df.cell "Price" i = some (.num p) →
          out.cell "PricePerBedroom" i = some (.num (p / b)))) ∧
    (hasCol df "AreaNet" = true → hasCol df "AreaGross" = true →
      ∀ i, i < df.rows.length →
        (∀ g a, df.cell "AreaGross" i = some (.num g) → 0 < g →
          df.cell "AreaNet" i = some (.num a) →
          out.cell "AreaUtilizationRatio" i = some (.num (a / g))) ∧
        (∀ g, df.cell "AreaGross" i = some (.num g) → ¬ 0 < g →
          out.cell "AreaUtilizationRatio" i = some (.num 0)) ∧
        (df.cell "AreaGross" i = none →
          out.cell "AreaUtilizationRatio" i = some (.num 0))) ∧
    ((hasCol df "Price" = false ∨ hasCol df "Bedrooms" = false) →
      deriveRatio df "PricePerBedroom" "Price" "Bedrooms" = .ok df) ∧
    ((hasCol df "Bathrooms" = false ∨ hasCol df "Bedrooms" = false) →
      deriveRatio df "BathroomToBedroom" "Bathrooms" "Bedrooms" = .ok df) ∧
    ((hasCol df "AreaNet" = false ∨ hasCol df "AreaGross" = false) →
      deriveArea df = .ok df) ∧
    ((hasCol df "PropertyType" = false ∨ hasCol df "PropertySubType" = false) →
      deriveConcat df = .ok df) := by
  obtain ⟨d1, d2, d3, h1, h2, h3, h4⟩ := engineer_parts df out h
  obtain ⟨l1, w1, n1, c1, hc1⟩ := deriveRatio_preserves df d1 _ _ _ hwf hnd h1
  obtain ⟨l2, w2, n2, c2, hc2⟩ := deriveRatio_preserves d1 d2 _ _ _ w1 n1 h2
  obtain ⟨l3, w3, n3, c3, hc3⟩ := deriveArea_preserves d2 d3 w2 n2 h3
  have c4 := deriveConcat_preserves d3 out w3 h4
  refine ⟨?_, ?_, fun hab => deriveRatio_skip df _ _ _ hab,
    fun hab => deriveRatio_skip df _ _ _ hab,
    fun hab => deriveArea_skip df hab, fun hab => deriveConcat_skip df hab⟩
  · intro hP hB i hi
    have hi1 : i < d1.rows.length := by
      rw [l1]
      exact hi
    have hi2 : i < d2.rows.length := by
      rw [l2]
      exact hi1
    have hi3 : i < d3.rows.length := by
      rw [l3]
      exact hi2
    cases hkn : colIdx df "Price" with
    | none =>
      unfold hasCol at hP
      rw [hkn] at hP
      cases hP
    | some kn =>
      cases hkd : colIdx df "Bedrooms" with
      | none =>
        unfold hasCol at hB
        rw [hkd] at hB
        cases hB
      | some kd =>
        have hrel := deriveRatio_cellrel df d1 _ _ _ hwf kn kd hkn hkd h1 i hi
        have hppb : out.cell "PricePerBedroom" i = d1.cell "PricePerBedroom" i := by
          rw [c4 _ (by decide) i hi3, c3 _ (by decide) i hi2, c2 _ (by decide) i hi1]
        constructor
        · intro hb0
          rw [hb0] at hrel
          unfold ratioCell at hrel
          dsimp only at hrel
          rw [if_neg (lt_irrefl (0 : ℚ))] at hrel
          injection hrel with hrel
          rw [hppb]
          exact hrel.symm
        · intro b p hb hbpos hp
          rw [hb, hp] at hrel
          unfold ratioCell at hrel
          dsimp only at hrel
          rw [if_pos hbpos] at hrel
          unfold divCell at hrel
          dsimp only at hrel
          injection hrel with hrel
          rw [hppb]
          exact hrel.symm
  · intro hAN hAG i hi
    have hi1 : i < d1.rows.length := by
      rw [l1]
      exact hi
    have hi2 : i < d2.rows.length := by
      rw [l2]
      exact hi1
    have hi3 : i < d3.rows.length := by
      rw [l3]
      exact hi2
    have hA2 : hasCol d2 "AreaNet" = true := by
      rw [hc2 _ (by decide), hc1 _ (by decide)]
      exact hAN
    have hG2 : hasCol d2 "AreaGross" = true := by
      rw [hc2 _ (by decide), hc1 _ (by decide)]
      exact hAG
    cases hkn2 : colIdx d2 "AreaNet" with
    | none =>
      unfold hasCol at hA2
      rw [hkn2] at hA2
      cases hA2
    | some kn2 =>
      cases hkg2 : colIdx d2 "AreaGross" with
      | none =>
        unfold hasCol at hG2
        rw [hkg2] at hG2
        cases hG2
      | some kg2 =>
        have hrel := deriveArea_cellrel d2 d3 w2 kn2 kg2 hkn2 hkg2 h3 i hi2
        have hnet : d2.cell "AreaNet" i = df.cell "AreaNet" i := by
          rw [c2 _ (by decide) i hi1, c1 _ (by decide) i hi]
        have hgross : d2.cell "AreaGross" i = df.cell "AreaGross" i := by
          rw [c2 _ (by decide) i hi1, c1 _ (by decide) i hi]
        have haur : out.cell "AreaUtilizationRatio" i =
            d3.cell "AreaUtilizationRatio" i := c4 _ (by decide) i hi3
        rw [hnet, hgross] at hrel
        refine ⟨?_, ?_, ?_⟩
        · intro g a hg hgpos ha
          rw [hg, ha] at hrel
          unfold areaRatioCell at hrel
          dsimp only at hrel
          rw [if_pos hgpos] at hrel
          unfold divCell at hrel
          dsimp only at hrel
          injection hrel with hrel
          rw [haur]
          exact hrel.symm
        · intro g hg hgneg
          rw [hg] at hrel
          unfold areaRatioCell at hrel
          dsimp only at hrel
          rw [if_neg hgneg] at hrel
          injection hrel with hrel
          rw [haur]
          exact hrel.symm
        · intro hg
          rw [hg] at hrel
          unfold areaRatioCell at hrel
          dsimp only at hrel
          injection hrel with hrel
          rw [haur]
          exact hrel.symm

/-- Witness input for the C5 theorem. -/
def wdf5 : DF :=
  ⟨[⟨"Price", .numeric⟩, ⟨"Bedrooms", .numeric⟩, ⟨"Bathrooms", .numeric⟩,
    ⟨"AreaNet", .numeric⟩, ⟨"AreaGross", .numeric⟩],
   [[some (.num 200000), some (.num 2), some (.num 1),
     some (.num 60), some (.num 120)]]⟩

/-- Witness output for the C5 theorem. -/
def wout5 : DF :=
  ⟨[⟨"Price", .numeric⟩, ⟨"Bedrooms", .numeric⟩, ⟨"Bathrooms", .numeric⟩,
    ⟨"AreaNet", .numeric⟩, ⟨"AreaGross", .numeric⟩,
    ⟨"PricePerBedroom", .numeric⟩, ⟨"BathroomToBedroom", .numeric⟩,
    ⟨"AreaUtilizationRatio", .numeric⟩],
   [[some (.num 200000), some (.num 2), some (.num 1),
     some (.num 60), some (.num 120),
     some (.num 100000), some (.num (1 / 2)), some (.num (1 / 2))]]⟩

/-- C5 witness: `Bedrooms = 2`, `Price = 200000` gives
`PricePerBedroom = 100000`; `AreaNet = 60`, `AreaGross = 120` gives
`AreaUtilizationRatio = 1/2`. -/
theorem engineer_spec_witness :
    wout5.cell "PricePerBedroom" 0 = some (.num 100000) ∧
    wout5.cell "AreaUtilizationRatio" 0 = some (.num (1 / 2)) := by
  have h := engineer_spec wdf5 wout5 (by decide) (by decide) (by with_unfolding_all rfl)
  constructor
  · have hc := (h.1 (by with_unfolding_all rfl) (by with_unfolding_all rfl) 0
      (by decide)).2 2 200000 (by with_unfolding_all rfl) (by with_unfolding_all decide)
      (by with_unfolding_all rfl)
    rw [hc]
    with_unfolding_all rfl
  · have hc := (h.2.1 (by with_unfolding_all rfl) (by with_unfolding_all rfl) 0
      (by decide)).1 120 60 (by with_unfolding_all rfl) (by with_unfolding_all decide)
      (by with_unfolding_all rfl)
    rw [hc]
    with_unfolding_all rfl

end LisbonPrep
